import Mathlib

set_option maxHeartbeats 1000000

/-!
Verification development for the Steam metadata resolver of input-remapper.

Byte buffers are modelled as `List Nat` (each entry a byte value below 256 in
well-formed data), matching Python `bytes` indexed access.  Python strings that
the code obtains by decoding byte slices (`.decode("utf-8", "replace")`,
`.decode("utf-16le", "replace")`) are modelled by the undecoded byte slices
themselves; for well-formed data the decode step is injective, so this is a
faithful representation of the values the parser distinguishes.  Python text
strings elsewhere (appids, names, paths, command lines) are modelled as
`List Char`; `str.lower`, `str.isdigit` and `\s`/`\d` character classes are
modelled at ASCII precision, which covers all data the claims mention.
-/

def toL (s : String) : List Char := s.toList

/-- First index of a zero byte, mirroring Python `bytes.index(0, ...)` search. -/
def findZeroIdx : List Nat → Option Nat
  | [] => none
  | b :: rest => if b = 0 then some 0 else (findZeroIdx rest).map (· + 1)

/-- Embeds `_read_cstring` (utils.py): slice up to the first NUL at or after
`index`; when no NUL exists, Python catches the `ValueError` and returns
`("", len(data))`. -/
def readCstring (data : List Nat) (index : Nat) : List Nat × Nat :=
  match findZeroIdx (data.drop index) with
  | none => ([], data.length)
  | some j => ((data.drop index).take j, index + j + 1)

/-- Loop body of `_read_wstring` (utils.py), with explicit fuel for the
`while` loop; the top-level wrapper supplies enough fuel for any input. -/
def readWstringAux (data : List Nat) : Nat → Nat → List Nat × Nat
  | 0, index => ([], index)
  | fuel + 1, index =>
    if index + 1 < data.length then
      if data.getD index 0 = 0 ∧ data.getD (index + 1) 0 = 0 then ([], index + 2)
      else
        let r := readWstringAux data fuel (index + 2)
        (data.getD index 0 :: data.getD (index + 1) 0 :: r.1, r.2)
    else ([], index)

/-- Embeds `_read_wstring` (utils.py): collect two-byte chunks until a
double-zero terminator or until fewer than two bytes remain. -/
def readWstring (data : List Nat) (index : Nat) : List Nat × Nat :=
  readWstringAux data data.length index

/-- Little-endian 4-byte unsigned read, as `int.from_bytes(..., "little")`. -/
def readU32 (data : List Nat) (idx : Nat) : Nat :=
  data.getD idx 0 + data.getD (idx + 1) 0 * 256 + data.getD (idx + 2) 0 * 65536 +
    data.getD (idx + 3) 0 * 16777216

/-- Little-endian 8-byte unsigned read. -/
def readU64 (data : List Nat) (idx : Nat) : Nat :=
  data.getD idx 0 + data.getD (idx + 1) 0 * 256 + data.getD (idx + 2) 0 * 65536 +
    data.getD (idx + 3) 0 * 16777216 + data.getD (idx + 4) 0 * 4294967296 +
    data.getD (idx + 5) 0 * 1099511627776 + data.getD (idx + 6) 0 * 281474976710656 +
    data.getD (idx + 7) 0 * 72057594037927936

/-- Signed reinterpretation of a 4-byte unsigned value, as
`int.from_bytes(..., signed=True)`. -/
def decodeI32 (n : Nat) : Int :=
  if n < 2147483648 then (n : Int) else (n : Int) - 4294967296

mutual
inductive VdfValue : Type where
  | vobj (o : VdfObj)
  | vstr (s : List Nat)
  | vint32 (i : Int)
  | vfloat (bits : Nat)
  | vptr (n : Nat)
  | vwstr (s : List Nat)
  | vcolor (b0 b1 b2 b3 : Nat)
  | vuint64 (n : Nat)
inductive VdfObj : Type where
  | nil
  | cons (key : List Nat) (value : VdfValue) (rest : VdfObj)
end

/-- Python `dict` assignment `obj[key] = value`: replace in place if the key
exists, otherwise append at the end. -/
def VdfObj.insert : VdfObj → List Nat → VdfValue → VdfObj
  | VdfObj.nil, k, v => VdfObj.cons k v VdfObj.nil
  | VdfObj.cons k0 v0 rest, k, v =>
    if k0 = k then VdfObj.cons k v rest else VdfObj.cons k0 v0 (rest.insert k v)

/-- Embeds `parse_obj` inside `_parse_binary_vdf` (utils.py).  `acc` is the
`obj` dictionary accumulated by the loop; the fuel argument only bounds the
recursion (each Python loop iteration or recursive call consumes one unit; the
top-level wrapper supplies more fuel than any input can consume, since every
iteration advances the offset).  Float values (tag 3) are kept as their 4-byte
little-endian bit pattern, which determines the Python float
`struct.unpack("<f", ...)` produces. -/
def parseObjAux (data : List Nat) : Nat → Nat → VdfObj → VdfObj × Nat
  | 0, idx, acc => (acc, idx)
  | fuel + 1, idx, acc =>
    if idx < data.length then
      if data.getD idx 0 = 8 then (acc, idx + 1)
      else if data.getD idx 0 = 0 then
        parseObjAux data fuel
          (parseObjAux data fuel (readCstring data (idx + 1)).2 VdfObj.nil).2
          (acc.insert (readCstring data (idx + 1)).1
            (VdfValue.vobj (parseObjAux data fuel (readCstring data (idx + 1)).2 VdfObj.nil).1))
      else if data.getD idx 0 = 1 then
        parseObjAux data fuel (readCstring data (readCstring data (idx + 1)).2).2
          (acc.insert (readCstring data (idx + 1)).1
            (VdfValue.vstr (readCstring data (readCstring data (idx + 1)).2).1))
      else if data.getD idx 0 = 2 then
        if (readCstring data (idx + 1)).2 + 4 > data.length then (acc, data.length)
        else
          parseObjAux data fuel ((readCstring data (idx + 1)).2 + 4)
            (acc.insert (readCstring data (idx + 1)).1
              (VdfValue.vint32 (decodeI32 (readU32 data (readCstring data (idx + 1)).2))))
      else if data.getD idx 0 = 3 then
        if (readCstring data (idx + 1)).2 + 4 > data.length then (acc, data.length)
        else
          parseObjAux data fuel ((readCstring data (idx + 1)).2 + 4)
            (acc.insert (readCstring data (idx + 1)).1
              (VdfValue.vfloat (readU32 data (readCstring data (idx + 1)).2)))
      else if data.getD idx 0 = 4 then
        if (readCstring data (idx + 1)).2 + 4 > data.length then (acc, data.length)
        else
          parseObjAux data fuel ((readCstring data (idx + 1)).2 + 4)
            (acc.insert (readCstring data (idx + 1)).1
              (VdfValue.vptr (readU32 data (readCstring data (idx + 1)).2)))
      else if data.getD idx 0 = 5 then
        parseObjAux data fuel (readWstring data (readCstring data (idx + 1)).2).2
          (acc.insert (readCstring data (idx + 1)).1
            (VdfValue.vwstr (readWstring data (readCstring data (idx + 1)).2).1))
      else if data.getD idx 0 = 6 then
        if (readCstring data (idx + 1)).2 + 4 > data.length then (acc, data.length)
        else
          parseObjAux data fuel ((readCstring data (idx + 1)).2 + 4)
            (acc.insert (readCstring data (idx + 1)).1
              (VdfValue.vcolor (data.getD (readCstring data (idx + 1)).2 0)
                (data.getD ((readCstring data (idx + 1)).2 + 1) 0)
                (data.getD ((readCstring data (idx + 1)).2 + 2) 0)
                (data.getD ((readCstring data (idx + 1)).2 + 3) 0)))
      else if data.getD idx 0 = 7 then
        if (readCstring data (idx + 1)).2 + 8 > data.length then (acc, data.length)
        else
          parseObjAux data fuel ((readCstring data (idx + 1)).2 + 8)
            (acc.insert (readCstring data (idx + 1)).1
              (VdfValue.vuint64 (readU64 data (readCstring data (idx + 1)).2)))
      else (acc, data.length)
    else (acc, idx)

/-- Embeds `_parse_binary_vdf` (utils.py): `root, _ = parse_obj(0); return root`.
The fuel `data.length + 1` always suffices because each loop iteration or
recursive call strictly advances the offset. -/
def parseBinaryVdf (data : List Nat) : VdfObj :=
  (parseObjAux data (data.length + 1) 0 VdfObj.nil).1

/-- Leading type-tag byte the binary format uses for each value kind. -/
def tagOf : VdfValue → Nat
  | VdfValue.vobj _ => 0
  | VdfValue.vstr _ => 1
  | VdfValue.vint32 _ => 2
  | VdfValue.vfloat _ => 3
  | VdfValue.vptr _ => 4
  | VdfValue.vwstr _ => 5
  | VdfValue.vcolor _ _ _ _ => 6
  | VdfValue.vuint64 _ => 7

/-- Little-endian 4-byte encoding of an unsigned value below 2^32. -/
def u32le (n : Nat) : List Nat :=
  [n % 256, n / 256 % 256, n / 65536 % 256, n / 16777216 % 256]

/-- Little-endian 8-byte encoding of an unsigned value below 2^64. -/
def u64le (n : Nat) : List Nat :=
  [n % 256, n / 256 % 256, n / 65536 % 256, n / 16777216 % 256,
   n / 4294967296 % 256, n / 1099511627776 % 256, n / 281474976710656 % 256,
   n / 72057594037927936 % 256]

/-- Two's-complement 32-bit representation of a signed value. -/
def encodeI32 (i : Int) : Nat := (i % 4294967296).toNat

mutual
/-- Value payload bytes of the binary KeyValues format (the bytes following
the tag byte and the NUL-terminated key), as the parser consumes them. -/
def encodeValue : VdfValue → List Nat
  | VdfValue.vobj o => encodeObjBody o
  | VdfValue.vstr s => s ++ [0]
  | VdfValue.vint32 i => u32le (encodeI32 i)
  | VdfValue.vfloat bits => u32le bits
  | VdfValue.vptr n => u32le n
  | VdfValue.vwstr s => s ++ [0, 0]
  | VdfValue.vcolor b0 b1 b2 b3 => [b0, b1, b2, b3]
  | VdfValue.vuint64 n => u64le n
/-- Byte encoding of an object body: for each entry a tag byte, then the
NUL-terminated key, then the value payload; a 0x08 end tag closes the level. -/
def encodeObjBody : VdfObj → List Nat
  | VdfObj.nil => [8]
  | VdfObj.cons k v rest => tagOf v :: (k ++ 0 :: (encodeValue v ++ encodeObjBody rest))
end

mutual
/-- Alternative encoding that follows the claim's words instead of the code:
each entry's NUL-terminated key comes first and the tag byte follows it.
Declared only to compare the claim's layout against the parser. -/
def encodeValueClaimOrder : VdfValue → List Nat
  | VdfValue.vobj o => encodeObjClaimOrder o
  | VdfValue.vstr s => s ++ [0]
  | VdfValue.vint32 i => u32le (encodeI32 i)
  | VdfValue.vfloat bits => u32le bits
  | VdfValue.vptr n => u32le n
  | VdfValue.vwstr s => s ++ [0, 0]
  | VdfValue.vcolor b0 b1 b2 b3 => [b0, b1, b2, b3]
  | VdfValue.vuint64 n => u64le n
/-- Object body in the claim's stated layout: key before the tag byte. -/
def encodeObjClaimOrder : VdfObj → List Nat
  | VdfObj.nil => [8]
  | VdfObj.cons k v rest =>
    k ++ 0 :: tagOf v :: (encodeValueClaimOrder v ++ encodeObjClaimOrder rest)
end

/-- A byte usable inside a NUL-terminated string: nonzero and below 256. -/
def wfByte (b : Nat) : Bool := decide (0 < b) && decide (b < 256)

/-- Well-formed UTF-16LE payload bytes: an even number of bytes, no two-byte
chunk equal to the 0,0 terminator. -/
def wfWstrBytes : List Nat → Bool
  | [] => true
  | [_] => false
  | a :: b :: rest =>
    decide (a < 256) && decide (b < 256) && !(decide (a = 0) && decide (b = 0)) &&
      wfWstrBytes rest

/-- Key membership in an object, mirroring Python `key in dict`. -/
def keyMem (k : List Nat) : VdfObj → Bool
  | VdfObj.nil => false
  | VdfObj.cons k0 _ rest => decide (k0 = k) || keyMem k rest

mutual
/-- Well-formed value: byte ranges respected, strings NUL-free, numeric
values within their field widths. -/
def wfVal : VdfValue → Bool
  | VdfValue.vobj o => wfObj o
  | VdfValue.vstr s => s.all wfByte
  | VdfValue.vint32 i => decide (-2147483648 ≤ i) && decide (i < 2147483648)
  | VdfValue.vfloat bits => decide (bits < 4294967296)
  | VdfValue.vptr n => decide (n < 4294967296)
  | VdfValue.vwstr s => wfWstrBytes s
  | VdfValue.vcolor b0 b1 b2 b3 =>
    decide (b0 < 256) && decide (b1 < 256) && decide (b2 < 256) && decide (b3 < 256)
  | VdfValue.vuint64 n => decide (n < 18446744073709551616)
/-- Well-formed object: NUL-free keys, no duplicate key on a level,
well-formed values. -/
def wfObj : VdfObj → Bool
  | VdfObj.nil => true
  | VdfObj.cons k v rest => k.all wfByte && wfVal v && !keyMem k rest && wfObj rest
end

mutual
/-- Number of parser steps an object costs, used as a fuel bound. -/
def sizeVal : VdfValue → Nat
  | VdfValue.vobj o => sizeObj o
  | _ => 0
def sizeObj : VdfObj → Nat
  | VdfObj.nil => 1
  | VdfObj.cons _ v rest => 1 + sizeVal v + sizeObj rest
end

/-- Concatenation of two objects (entry lists). -/
def VdfObj.append : VdfObj → VdfObj → VdfObj
  | VdfObj.nil, o => o
  | VdfObj.cons k v r, o => VdfObj.cons k v (r.append o)

/-- ASCII lowering of a text string, modelling Python `str.lower()` on the
ASCII range the claims exercise. -/
def lowerChars (s : List Char) : List Char := s.map Char.toLower

/-- Lexicographic comparison by code point, modelling Python `str` order. -/
def lexLe : List Char → List Char → Bool
  | [], _ => true
  | _ :: _, [] => false
  | a :: as, b :: bs =>
    if a.val < b.val then true else if b.val < a.val then false else lexLe as bs

/-- Whether the first list starts with the second, as Python `startswith`. -/
def startsWithL : List Char → List Char → Bool
  | _, [] => true
  | [], _ :: _ => false
  | a :: as, b :: bs => decide (a = b) && startsWithL as bs

/-- Case-insensitive variant of `startsWithL` (ASCII lowering). -/
def startsWithCI : List Char → List Char → Bool
  | _, [] => true
  | [], _ :: _ => false
  | a :: as, b :: bs => decide (a.toLower = b.toLower) && startsWithCI as bs

/-- Substring containment, as Python `needle in haystack`. -/
def containsSub : List Char → List Char → Bool
  | [], p => startsWithL [] p
  | a :: rest, p => startsWithL (a :: rest) p || containsSub rest p

/-- Python `dict` assignment on an insertion-ordered association list:
replace in place when the key exists, append otherwise. -/
def pyInsert {α β : Type} [DecidableEq α] : List (α × β) → α → β → List (α × β)
  | [], k, v => [(k, v)]
  | (k0, v0) :: rest, k, v =>
    if k0 = k then (k, v) :: rest else (k0, v0) :: pyInsert rest k v

/-- Python `dict` lookup on an insertion-ordered association list. -/
def lookupA {α β : Type} [DecidableEq α] : List (α × β) → α → Option β
  | [], _ => none
  | (k0, v0) :: rest, k => if k0 = k then some v0 else lookupA rest k

/-- Stable insertion into a sorted list: placed after every element that
compares less-or-equal, so later elements with equal keys keep their order. -/
def insertSorted {α : Type} (le : α → α → Bool) (x : α) : List α → List α
  | [] => [x]
  | y :: ys => if le y x then y :: insertSorted le x ys else x :: y :: ys

/-- Stable sort by a boolean total preorder, modelling Python `sorted`. -/
def sortBy {α : Type} (le : α → α → Bool) (l : List α) : List α :=
  l.foldl (fun acc x => insertSorted le x acc) []

/-- The `known_runtime_appids` set of `_is_steam_runtime` (utils.py). -/
def knownRuntimeAppids : List (List Char) :=
  [toL "1070560", toL "1391110", toL "1628350", toL "228980", toL "1161040",
   toL "1493710", toL "2180100", toL "3658110"]

/-- The `if appid and appid in known_runtime_appids` check of
`_is_steam_runtime` (utils.py). -/
def runtimeAppidCheck : Option (List Char) → Bool
  | some a => decide (a ≠ []) && decide (a ∈ knownRuntimeAppids)
  | none => false

/-- Embeds `_is_steam_runtime` (utils.py): known runtime appids, then
case-insensitive substring checks over `f"{name} {installdir or ''}"`. -/
def isSteamRuntime (name : List Char) (installdir : Option (List Char))
    (appid : Option (List Char)) : Bool :=
  runtimeAppidCheck appid ||
  (containsSub (lowerChars (name ++ ' ' :: installdir.getD [])) (toL "proton") ||
   containsSub (lowerChars (name ++ ' ' :: installdir.getD [])) (toL "steam linux runtime") ||
   containsSub (lowerChars (name ++ ' ' :: installdir.getD []))
     (toL "steamworks common redistributables") ||
   containsSub (lowerChars (name ++ ' ' :: installdir.getD [])) (toL "steamworks shared"))

/-- One `appmanifest_*.acf` file as `get_steam_installed_games` consumes it:
the appid taken from the filename and the `_parse_appmanifest` result
`(appid, name)` (appid may be empty when the manifest body lacks one, the
whole result `none` when the file is unreadable or has no name).  The
per-library iteration of the source is flattened into one list, in listing
order. -/
structure RawManifest : Type where
  appidFromName : List Char
  parsed : Option (List Char × List Char)

/-- One manifest as `get_steam_installed_game_paths` consumes it: the library
directory it came from, the filename appid, and the
`_parse_appmanifest_details` result `(appid, name, installdir)`. -/
structure RawManifestD : Type where
  library : List Char
  appidFromName : List Char
  parsedD : Option (List Char × List Char × List Char)

/-- One tuple of the `get_steam_shortcuts()` output:
`(appid, name, exe, startdir, launch_options)`. -/
structure ShortcutEntry : Type where
  appid : List Char
  name : List Char
  exe : List Char
  startdir : List Char
  launchOptions : List Char

/-- POSIX `os.path.join` for two components: an absolute second component
replaces the first. -/
def pathJoin (a b : List Char) : List Char :=
  if b.head? = some '/' then b
  else if a = [] then b
  else if a.getLast? = some '/' then a ++ b
  else a ++ '/' :: b

/-- Manifest phase of `get_steam_installed_games` (utils.py): fill the
`games` dict from parsed manifests, skipping empty appids and Steam
runtimes/tools. -/
def manifestGames (manifests : List RawManifest) : List (List Char × List Char) :=
  manifests.foldl
    (fun games m =>
      match m.parsed with
      | none => games
      | some (appid0, name) =>
        if (if appid0 = [] then m.appidFromName else appid0) ≠ [] ∧
            isSteamRuntime name none
              (some (if appid0 = [] then m.appidFromName else appid0)) = false then
          pyInsert games (if appid0 = [] then m.appidFromName else appid0) name
        else games)
    []

/-- Shortcut phase of `get_steam_installed_games` (utils.py): add shortcuts
whose appid and name are nonempty and whose appid is not already present. -/
def shortcutsMergeGames (games : List (List Char × List Char))
    (shortcuts : List ShortcutEntry) : List (List Char × List Char) :=
  shortcuts.foldl
    (fun games sc =>
      if sc.appid ≠ [] ∧ sc.name ≠ [] ∧ lookupA games sc.appid = none then
        pyInsert games sc.appid sc.name
      else games)
    games

/-- Embeds `get_steam_installed_games` (utils.py) from the point where the
filesystem reads have been resolved into parsed manifests and the
`get_steam_shortcuts()` tuples. -/
def getSteamInstalledGames (manifests : List RawManifest)
    (shortcuts : List ShortcutEntry) : List (List Char × List Char) :=
  sortBy (fun a b => lexLe (lowerChars a.2) (lowerChars b.2))
    (shortcutsMergeGames (manifestGames manifests) shortcuts)

/-- Manifest phase of `get_steam_installed_game_paths` (utils.py): the
`games` dict mapping appid to `(name, install_path)`. -/
def manifestGamesD (manifests : List RawManifestD) :
    List (List Char × (List Char × List Char)) :=
  manifests.foldl
    (fun games m =>
      match m.parsedD with
      | none => games
      | some (appid0, name, installdir) =>
        if (if appid0 = [] then m.appidFromName else appid0) = [] ∨ installdir = [] then
          games
        else if isSteamRuntime name (some installdir)
            (some (if appid0 = [] then m.appidFromName else appid0)) = true then games
        else
          pyInsert games (if appid0 = [] then m.appidFromName else appid0)
            (name, pathJoin (pathJoin m.library (toL "common")) installdir))
    []

/-- The `skip_paths` deny-list of `get_steam_installed_game_paths`. -/
def skipPaths : List (List Char) :=
  [toL "/usr/bin", toL "/usr/bin/flatpak", toL "/usr/bin/env"]

/-- Embeds `get_steam_installed_game_paths` (utils.py): manifest-derived
entries first, then every shortcut whose base path (startdir, else exe) is
nonempty and not deny-listed is appended, with no appid deduplication
against the manifest entries. -/
def getSteamInstalledGamePaths (manifests : List RawManifestD)
    (shortcuts : List ShortcutEntry) : List (List Char × List Char × List Char) :=
  sortBy (fun a b => lexLe (lowerChars a.2.1) (lowerChars b.2.1))
    (shortcuts.foldl
      (fun res sc =>
        if (if sc.startdir ≠ [] then sc.startdir else sc.exe) = [] then res
        else if (if sc.startdir ≠ [] then sc.startdir else sc.exe) ∈ skipPaths then res
        else res ++ [(sc.appid, sc.name, if sc.startdir ≠ [] then sc.startdir else sc.exe)])
      ((manifestGamesD manifests).map (fun p => (p.1, p.2.1, p.2.2))))

/-- Nonempty and all ASCII digits, modelling Python `value.isdigit()` guarded
by truthiness (`if value and value.isdigit()`). -/
def isDigitStr (s : List Char) : Bool := decide (s ≠ []) && s.all Char.isDigit

/-- Key loop of `SteamProcessWatcher._get_env_appid` (editor.py): first key
whose value is present, nonempty and purely numeric wins; a present but
non-numeric value just moves on to the next key. -/
def envAppidLoop (env : List (List Char × List Char)) : List (List Char) → List Char
  | [] => []
  | k :: ks =>
    match lookupA env k with
    | some v => if isDigitStr v then v else envAppidLoop env ks
    | none => envAppidLoop env ks

/-- Embeds `SteamProcessWatcher._get_env_appid` (editor.py). -/
def getEnvAppid (env : List (List Char × List Char)) : List Char :=
  envAppidLoop env [toL "SteamAppId", toL "SteamAppID", toL "STEAM_APP_ID", toL "SteamGameId"]

/-- Leftmost-match regex search: try the matcher at every suffix, leftmost
starting position first, as `re.search` does for these backtracking-free
patterns. -/
def searchFirst (f : List Char → Option (List Char)) : List Char → Option (List Char)
  | [] => f []
  | a :: rest =>
    match f (a :: rest) with
    | some r => some r
    | none => searchFirst f rest

/-- Matcher for `compatdata[\\/](\d+)` anchored at the head of the text. -/
def matchCompatAt (l : List Char) : Option (List Char) :=
  if startsWithL l (toL "compatdata") then
    match l.drop (toL "compatdata").length with
    | c :: rest =>
      if c = '/' ∨ c = '\\' then
        if (rest.takeWhile Char.isDigit) = [] then none
        else some (rest.takeWhile Char.isDigit)
      else none
    | [] => none
  else none

/-- Key loop of `SteamProcessWatcher._get_compat_appid` (editor.py). -/
def compatAppidLoop (env : List (List Char × List Char)) : List (List Char) → List Char
  | [] => []
  | k :: ks =>
    if isDigitStr ((lookupA env k).getD []) then (lookupA env k).getD []
    else
      match searchFirst matchCompatAt ((lookupA env k).getD []) with
      | some d => d
      | none => compatAppidLoop env ks

/-- Embeds `SteamProcessWatcher._get_compat_appid` (editor.py). -/
def getCompatAppid (env : List (List Char × List Char)) : List Char :=
  compatAppidLoop env [toL "STEAM_COMPAT_APP_ID", toL "STEAM_COMPAT_DATA_PATH"]

/-- Separator class `[=:\s]` of the command-line flag patterns (ASCII). -/
def isSepChar (c : Char) : Bool :=
  decide (c = '=') || decide (c = ':') || decide (c = ' ') || decide (c = '\t') ||
    decide (c = '\n') || decide (c = '\r') || decide (c = '\x0b') || decide (c = '\x0c')

/-- Matcher for one flag pattern `<lit>[=:\s]+(\d+)` (IGNORECASE) anchored at
the head of the text; the separator and digit classes are disjoint, so the
greedy runs match `re` semantics exactly. -/
def matchFlagAt (lit : List Char) (l : List Char) : Option (List Char) :=
  if startsWithCI l lit then
    if (l.drop lit.length).takeWhile isSepChar = [] then none
    else
      if ((l.drop lit.length).dropWhile isSepChar).takeWhile Char.isDigit = [] then none
      else some (((l.drop lit.length).dropWhile isSepChar).takeWhile Char.isDigit)
  else none

/-- The pattern literals of `SteamProcessWatcher._get_cmd_appid` (editor.py),
in source order (several are redundant under IGNORECASE, as in the source). -/
def cmdPatternLits : List (List Char) :=
  [toL "SteamAppId", toL "STEAM_APP_ID", toL "steam_appid", toL "-steamappid",
   toL "-steamAppId", toL "--appid", toL "-appid", toL "--app-id", toL "-app-id",
   toL "-gameid", toL "-gameId"]

/-- Pattern loop of `_get_cmd_appid`: first pattern that matches anywhere in
the text wins, yielding its captured digit group. -/
def searchCmdPatterns (text : List Char) : Option (List Char) :=
  cmdPatternLits.foldr
    (fun lit acc =>
      match searchFirst (matchFlagAt lit) text with
      | some v => some v
      | none => acc)
    none

/-- Python `" ".join(cmdline)`. -/
def joinSpace : List (List Char) → List Char
  | [] => []
  | [x] => x
  | x :: y :: rest => x ++ ' ' :: joinSpace (y :: rest)

/-- Decimal digit string of a natural number (Python `str(int)`). -/
def natDigitsAux : Nat → Nat → List Char → List Char
  | 0, _, acc => acc
  | f + 1, n, acc =>
    if n < 10 then Char.ofNat (48 + n % 10) :: acc
    else natDigitsAux f (n / 10) (Char.ofNat (48 + n % 10) :: acc)

/-- Decimal rendering of a natural number. -/
def natToChars (n : Nat) : List Char := natDigitsAux (n + 1) n []

/-- Numeric value of an ASCII digit string (Python `int(value)`). -/
def digitsToNat (s : List Char) : Nat :=
  s.foldl (fun a c => a * 10 + (c.toNat - 48)) 0

/-- Embeds `SteamProcessWatcher._get_cmd_appid` (editor.py): captured values
longer than 10 digits are folded through `int(value) & 0xFFFFFFFF` (the
`except` branch is unreachable because the capture is a digit run). -/
def getCmdAppid (cmdline : List (List Char)) : List Char :=
  match searchCmdPatterns (joinSpace cmdline) with
  | none => []
  | some v =>
    if v.length > 10 then natToChars (digitsToNat v % 4294967296) else v

/-- Embeds `SteamProcessWatcher._match_path_appid` (editor.py); `paths` holds
`(base, appid, name)` triples as prepared in `__init__`. -/
def matchPathAppid (paths : List (List Char × List Char × List Char))
    (exe cwd cmdText : List Char) : List Char :=
  match paths with
  | [] => []
  | (base, appid, _) :: rest =>
    if exe ≠ [] ∧ startsWithL exe base then appid
    else if cwd ≠ [] ∧ startsWithL cwd base then appid
    else if cmdText ≠ [] ∧ containsSub cmdText base then appid
    else matchPathAppid rest exe cwd cmdText

/-- Appid-resolution core of `SteamProcessWatcher._inspect_pid` (editor.py):
the `matches` list is built in the order env, compat, cmdline, path, and the
resolved appid is the first entry (`matches[0][1]`), `None` when no strategy
matched. -/
def inspectAppid (paths : List (List Char × List Char × List Char))
    (exe cwd : List Char) (cmdline : List (List Char))
    (env : List (List Char × List Char)) : Option (List Char) :=
  (((if getEnvAppid env ≠ [] then [(toL "env", getEnvAppid env)] else []) ++
    (if getCompatAppid env ≠ [] then [(toL "compat", getCompatAppid env)] else []) ++
    (if getCmdAppid cmdline ≠ [] then [(toL "cmdline", getCmdAppid cmdline)] else []) ++
    (if matchPathAppid paths exe cwd (joinSpace cmdline) ≠ [] then
      [(toL "path", matchPathAppid paths exe cwd (joinSpace cmdline))] else [])).head?).map
    (fun m => m.2)

/-- Insertion into a strictly sorted duplicate-free list, skipping elements
already present. -/
def insertDistinct (x : List Char) : List (List Char) → List (List Char)
  | [] => [x]
  | y :: ys =>
    if x = y then y :: ys
    else if lexLe x y then x :: y :: ys
    else y :: insertDistinct x ys

/-- Python `sorted({...})`: the strictly sorted list of the distinct values. -/
def sortedDistinct (l : List (List Char)) : List (List Char) :=
  l.foldl (fun acc x => insertDistinct x acc) []

/-- The tick's `current_appids` in `SteamProcessWatcher._poll` (editor.py):
`sorted({match["appid"] for match in hits if match.get("appid")})`, taking
the per-process resolved appids (empty string for processes without one). -/
def pollCurrent (appids : List (List Char)) : List (List Char) :=
  sortedDistinct (appids.filter (fun a => a ≠ []))

/-- State update and notification decision of `SteamProcessWatcher._poll`
(editor.py): `self._last` starts as `None` and is replaced by the tick's
sorted appid list exactly when it differs; the returned flag is whether the
change log line (the change notification) is emitted. -/
def pollTick (last : Option (List (List Char))) (appids : List (List Char)) :
    Option (List (List Char)) × Bool :=
  if some (pollCurrent appids) ≠ last then (some (pollCurrent appids), true)
  else (last, false)

/-- Initial `self._last` of `SteamProcessWatcher.__init__` (editor.py). -/
def watcherInitialLast : Option (List (List Char)) := none

/-- Modelled from the spec: the AppInfoIndex type filter the game catalog
applies to manifests.  The app-info consuming revision of the catalog is not
among the supplied sources (only the revision without it is), so this follows
the spec's words: with any index entries present, drop manifests whose
recorded type is not "game" and keep manifests with no recorded type; with an
empty index, do not filter at all. -/
def applyAppInfoTypeFilter (index : List (List Char × List Char))
    (ms : List (List Char × List Char)) : List (List Char × List Char) :=
  if index = [] then ms
  else
    ms.filter
      (fun m =>
        match lookupA index m.1 with
        | some t => decide (t = toL "game")
        | none => true)

/-- Modelled from the spec: the record loop of the app-info cache scan, which
is not among the supplied sources.  After the 8-byte header, records are
`(appid:u32, size:u32, blob)`; appid `0` is the end sentinel; a size of zero
(non-positive, as u32) or one overrunning the remaining buffer stops the
whole scan, keeping the records decoded so far.  Fuel only bounds the loop;
the wrapper supplies more than any input can consume. -/
def scanRecords (data : List Nat) : Nat → Nat → List (Nat × List Nat)
  | 0, _ => []
  | fuel + 1, idx =>
    if idx + 8 > data.length then []
    else if readU32 data idx = 0 then []
    else if readU32 data (idx + 4) = 0 ∨ idx + 8 + readU32 data (idx + 4) > data.length then []
    else
      (readU32 data idx, (data.drop (idx + 8)).take (readU32 data (idx + 4))) ::
        scanRecords data fuel (idx + 8 + readU32 data (idx + 4))

/-- Modelled from the spec: the app-info cache scan over a whole buffer,
starting after the 8-byte header. -/
def appInfoScan (data : List Nat) : List (Nat × List Nat) :=
  scanRecords data (data.length + 1) 8

/-- Byte encoding of one app-info record: appid, size, blob. -/
def encodeAppInfoRec (r : Nat × List Nat) : List Nat :=
  u32le r.1 ++ u32le r.2.length ++ r.2

/-- Byte encoding of a sequence of app-info records. -/
def encodeAppInfoRecs : List (Nat × List Nat) → List Nat
  | [] => []
  | r :: rest => encodeAppInfoRec r ++ encodeAppInfoRecs rest

/-- Sample manifest input (details form) with appid 400, for C5. -/
def sampleManifestsD : List RawManifestD :=
  [RawManifestD.mk (toL "/lib") (toL "400") (some (toL "400", toL "Portal", toL "Portal"))]

/-- Sample manifest input (name form) with appid 400, for C5. -/
def sampleManifests : List RawManifest :=
  [RawManifest.mk (toL "400") (some (toL "400", toL "Portal"))]

/-- Sample shortcut sharing appid 400 with the manifest, for C5. -/
def sampleShortcuts : List ShortcutEntry :=
  [ShortcutEntry.mk (toL "400") (toL "My Shortcut") (toL "/games/x") (toL "/games") (toL "")]

/-- Sample shortcut carrying the runtime appid 1391110, for C9. -/
def runtimeShortcuts : List ShortcutEntry :=
  [ShortcutEntry.mk (toL "1391110") (toL "Cool Game") (toL "/a") (toL "/b") (toL "")]

/-- Sample manifests with one runtime entry and one ordinary game, for C9. -/
def runtimeManifests : List RawManifest :=
  [RawManifest.mk (toL "1391110") (some (toL "1391110", toL "Steam Linux Runtime 2.0")),
   RawManifest.mk (toL "5") (some (toL "5", toL "ok"))]

/-- Sample app-info type index, for C3. -/
def sampleAppInfoIdx : List (List Char × List Char) :=
  [(toL "10", toL "tool"), (toL "30", toL "game")]

/-- Sample manifest pairs the type filter is applied to, for C3. -/
def sampleTypedManifests : List (List Char × List Char) :=
  [(toL "10", toL "A"), (toL "20", toL "B"), (toL "30", toL "C")]

/-- Sample tree exercising every value kind, for concrete evaluation. -/
def sampleVdfTree : VdfObj :=
  VdfObj.cons [97] (VdfValue.vobj (VdfObj.cons [120] (VdfValue.vstr [121]) VdfObj.nil))
    (VdfObj.cons [98] (VdfValue.vstr [104, 105])
      (VdfObj.cons [99] (VdfValue.vint32 (-5))
        (VdfObj.cons [100] (VdfValue.vfloat 1078530011)
          (VdfObj.cons [101] (VdfValue.vptr 7)
            (VdfObj.cons [102] (VdfValue.vwstr [104, 0])
              (VdfObj.cons [103] (VdfValue.vcolor 1 2 3 4)
                (VdfObj.cons [104] (VdfValue.vuint64 99999999999) VdfObj.nil)))))))

theorem getD_drop {α : Type} (l : List α) (i j : Nat) (d : α) :
    (l.drop i).getD j d = l.getD (i + j) d := by
  simp [List.getD_eq_getElem?_getD, List.getElem?_drop]

theorem drop_eq_cons {α : Type} {l t : List α} {a : α} {i : Nat} (d : α)
    (h : l.drop i = a :: t) :
    l.getD i d = a ∧ l.drop (i + 1) = t ∧ i < l.length := by
  refine ⟨?_, ?_, ?_⟩
  · have h1 := getD_drop l i 0 d
    rw [h] at h1
    simpa using h1.symm
  · have h2 := List.drop_drop 1 i l
    rw [h] at h2
    simpa using h2.symm
  · have h3 := List.length_drop i l
    rw [h] at h3
    simp at h3
    omega

theorem findZeroIdx_append {s t : List Nat} (hs : ∀ b ∈ s, b ≠ 0) :
    findZeroIdx (s ++ 0 :: t) = some s.length := by
  induction s with
  | nil => simp [findZeroIdx]
  | cons a as ih =>
    have ha : a ≠ 0 := hs a (by simp)
    have ih2 := ih (fun b hb => hs b (by simp [hb]))
    simp [findZeroIdx, ha, ih2]

theorem readCstring_spec {l s t : List Nat} {i : Nat}
    (h : l.drop i = s ++ 0 :: t) (hs : ∀ b ∈ s, b ≠ 0) :
    readCstring l i = (s, i + s.length + 1) ∧ l.drop (i + s.length + 1) = t ∧
      i + s.length + 1 ≤ l.length := by
  have hlen := List.length_drop i l
  rw [h] at hlen
  simp at hlen
  refine ⟨?_, ?_, by omega⟩
  · unfold readCstring
    rw [h, findZeroIdx_append hs]
    have htake : (s ++ 0 :: t).take s.length = s := List.take_left s (0 :: t)
    simp [htake]
  · have h2 := List.drop_drop (s.length + 1) i l
    rw [h] at h2
    have h3 : (s ++ 0 :: t).drop (s.length + 1) = t := by
      have e : s ++ 0 :: t = (s ++ [0]) ++ t := by simp
      rw [e]
      have h4 := List.drop_left (s ++ [0]) t
      rw [show s.length + 1 = (s ++ [0]).length from by simp]
      exact h4
    rw [h3] at h2
    have e2 : i + s.length + 1 = i + (s.length + 1) := by omega
    rw [e2]
    exact h2.symm

theorem pairInduction (P : List Nat → Prop) (h0 : P []) (h1 : ∀ a, P [a])
    (h2 : ∀ a b l, P l → P (a :: b :: l)) : ∀ l, P l
  | [] => h0
  | [a] => h1 a
  | a :: b :: l => h2 a b l (pairInduction P h0 h1 h2 l)

theorem readWstringAux_spec :
    ∀ s : List Nat, wfWstrBytes s = true → ∀ (l t : List Nat) (i fuel : Nat),
      l.drop i = s ++ 0 :: 0 :: t → s.length + 1 ≤ fuel →
      readWstringAux l fuel i = (s, i + s.length + 2) := by
  refine pairInduction _ ?_ ?_ ?_
  · intro _ l t i fuel h hf
    simp at h
    obtain ⟨g1, g2, g3⟩ := drop_eq_cons 0 h
    obtain ⟨g4, g5, g6⟩ := drop_eq_cons 0 g2
    cases fuel with
    | zero => omega
    | succ f =>
      have hc : l.getD i 0 = 0 ∧ l.getD (i + 1) 0 = 0 := ⟨g1, g4⟩
      simp only [readWstringAux, if_pos g6, if_pos hc]
      simp
  · intro a hwf
    simp [wfWstrBytes] at hwf
  · intro a b s ih hwf l t i fuel h hf
    simp only [wfWstrBytes, Bool.and_eq_true, Bool.not_eq_true', Bool.and_eq_false_iff,
      decide_eq_true_eq, decide_eq_false_iff_not] at hwf
    obtain ⟨⟨⟨ha, hb⟩, hab⟩, hs⟩ := hwf
    simp only [List.cons_append] at h
    obtain ⟨g1, g2, g3⟩ := drop_eq_cons 0 h
    obtain ⟨g4, g5, g6⟩ := drop_eq_cons 0 g2
    cases fuel with
    | zero => simp only [List.length_cons] at hf; omega
    | succ f =>
      have hf2 : s.length + 1 ≤ f := by simp only [List.length_cons] at hf; omega
      have ih2 := ih hs l t (i + 1 + 1) f g5 hf2
      have hnot : ¬(l.getD i 0 = 0 ∧ l.getD (i + 1) 0 = 0) := by
        rw [g1, g4]
        intro hc
        rcases hab with h1 | h1
        · exact h1 hc.1
        · exact h1 hc.2
      have hlt : i + 1 < l.length := g6
      have e : i + 1 + 1 = i + 2 := by omega
      rw [e] at ih2
      simp only [readWstringAux, if_pos hlt, if_neg hnot, ih2, g1, g4]
      have hnot2 : ¬(a = 0 ∧ b = 0) := by tauto
      rw [if_neg hnot2]
      simp only [Prod.mk.injEq, List.length_cons]
      refine ⟨by simp, by omega⟩

theorem readWstring_spec {l s t : List Nat} {i : Nat}
    (hwf : wfWstrBytes s = true) (h : l.drop i = s ++ 0 :: 0 :: t) :
    readWstring l i = (s, i + s.length + 2) ∧ l.drop (i + s.length + 2) = t ∧
      i + s.length + 2 ≤ l.length := by
  have hlen := List.length_drop i l
  rw [h] at hlen
  simp at hlen
  refine ⟨?_, ?_, by omega⟩
  · exact readWstringAux_spec s hwf l t i l.length h (by omega)
  · have h2 := List.drop_drop (s.length + 2) i l
    rw [h] at h2
    have h3 : (s ++ 0 :: 0 :: t).drop (s.length + 2) = t := by
      have e : s ++ 0 :: 0 :: t = (s ++ [0, 0]) ++ t := by simp
      rw [e]
      have h4 := List.drop_left (s ++ [0, 0]) t
      rw [show s.length + 2 = (s ++ [0, 0]).length from by simp]
      exact h4
    rw [h3] at h2
    rw [show i + s.length + 2 = i + (s.length + 2) from by omega]
    exact h2.symm

theorem readU32_spec {l t : List Nat} {i n : Nat} (hn : n < 4294967296)
    (h : l.drop i = u32le n ++ t) :
    readU32 l i = n ∧ l.drop (i + 4) = t ∧ i + 4 ≤ l.length := by
  simp only [u32le, List.cons_append, List.nil_append] at h
  obtain ⟨g1, g2, _⟩ := drop_eq_cons 0 h
  obtain ⟨g3, g4, _⟩ := drop_eq_cons 0 g2
  obtain ⟨g5, g6, _⟩ := drop_eq_cons 0 g4
  obtain ⟨g7, g8, g9⟩ := drop_eq_cons 0 g6
  refine ⟨?_, ?_, by omega⟩
  · unfold readU32
    have e5 : l.getD (i + 2) 0 = n / 65536 % 256 := by
      rw [show i + 2 = i + 1 + 1 from by omega]; exact g5
    have e7 : l.getD (i + 3) 0 = n / 16777216 % 256 := by
      rw [show i + 3 = i + 1 + 1 + 1 from by omega]; exact g7
    rw [g1, g3, e5, e7]
    omega
  · rw [show i + 4 = i + 1 + 1 + 1 + 1 from by omega]
    exact g8

theorem readU64_spec {l t : List Nat} {i n : Nat} (hn : n < 18446744073709551616)
    (h : l.drop i = u64le n ++ t) :
    readU64 l i = n ∧ l.drop (i + 8) = t ∧ i + 8 ≤ l.length := by
  simp only [u64le, List.cons_append, List.nil_append] at h
  obtain ⟨g1, g2, _⟩ := drop_eq_cons 0 h
  obtain ⟨g3, g4, _⟩ := drop_eq_cons 0 g2
  obtain ⟨g5, g6, _⟩ := drop_eq_cons 0 g4
  obtain ⟨g7, g8, _⟩ := drop_eq_cons 0 g6
  obtain ⟨g9, g10, _⟩ := drop_eq_cons 0 g8
  obtain ⟨g11, g12, _⟩ := drop_eq_cons 0 g10
  obtain ⟨g13, g14, _⟩ := drop_eq_cons 0 g12
  obtain ⟨g15, g16, g17⟩ := drop_eq_cons 0 g14
  refine ⟨?_, ?_, by omega⟩
  · unfold readU64
    have e5 : l.getD (i + 2) 0 = n / 65536 % 256 := by
      rw [show i + 2 = i + 1 + 1 from by omega]; exact g5
    have e7 : l.getD (i + 3) 0 = n / 16777216 % 256 := by
      rw [show i + 3 = i + 1 + 1 + 1 from by omega]; exact g7
    have e9 : l.getD (i + 4) 0 = n / 4294967296 % 256 := by
      rw [show i + 4 = i + 1 + 1 + 1 + 1 from by omega]; exact g9
    have e11 : l.getD (i + 5) 0 = n / 1099511627776 % 256 := by
      rw [show i + 5 = i + 1 + 1 + 1 + 1 + 1 from by omega]; exact g11
    have e13 : l.getD (i + 6) 0 = n / 281474976710656 % 256 := by
      rw [show i + 6 = i + 1 + 1 + 1 + 1 + 1 + 1 from by omega]; exact g13
    have e15 : l.getD (i + 7) 0 = n / 72057594037927936 % 256 := by
      rw [show i + 7 = i + 1 + 1 + 1 + 1 + 1 + 1 + 1 from by omega]; exact g15
    rw [g1, g3, e5, e7, e9, e11, e13, e15]
    omega
  · rw [show i + 8 = i + 1 + 1 + 1 + 1 + 1 + 1 + 1 + 1 from by omega]
    exact g16

theorem decodeI32_encodeI32 {i : Int} (h1 : -2147483648 ≤ i) (h2 : i < 2147483648) :
    decodeI32 (encodeI32 i) = i ∧ encodeI32 i < 4294967296 := by
  unfold encodeI32 decodeI32
  have hnn : 0 ≤ i % 4294967296 := by omega
  have hub : i % 4294967296 < 4294967296 := by omega
  have hm : ((i % 4294967296).toNat : Int) = i % 4294967296 := Int.toNat_of_nonneg hnn
  constructor
  · split
    · omega
    · omega
  · omega

theorem vdfObj_append_nil : ∀ o : VdfObj, o.append VdfObj.nil = o
  | VdfObj.nil => rfl
  | VdfObj.cons k v r => by
    show VdfObj.cons k v (r.append VdfObj.nil) = VdfObj.cons k v r
    rw [vdfObj_append_nil r]

theorem keyMem_append (k : List Nat) :
    ∀ a b : VdfObj, keyMem k (a.append b) = (keyMem k a || keyMem k b)
  | VdfObj.nil, b => by simp [VdfObj.append, keyMem]
  | VdfObj.cons k0 v0 r, b => by
    simp [VdfObj.append, keyMem, keyMem_append k r b, Bool.or_assoc]

theorem insert_fresh {k : List Nat} (v : VdfValue) :
    ∀ {acc : VdfObj}, keyMem k acc = false →
      acc.insert k v = acc.append (VdfObj.cons k v VdfObj.nil)
  | VdfObj.nil, _ => rfl
  | VdfObj.cons k0 v0 r, h => by
    simp only [keyMem, Bool.or_eq_false_iff, decide_eq_false_iff_not] at h
    show (if k0 = k then VdfObj.cons k v r else VdfObj.cons k0 v0 (r.insert k v)) = _
    rw [if_neg h.1]
    show VdfObj.cons k0 v0 (r.insert k v) =
      VdfObj.cons k0 v0 (r.append (VdfObj.cons k v VdfObj.nil))
    rw [insert_fresh v h.2]

theorem append_single_cons (k : List Nat) (v : VdfValue) :
    ∀ (a r : VdfObj), (a.append (VdfObj.cons k v VdfObj.nil)).append r =
      a.append (VdfObj.cons k v r)
  | VdfObj.nil, r => rfl
  | VdfObj.cons k0 v0 a0, r => by
    show VdfObj.cons k0 v0 ((a0.append (VdfObj.cons k v VdfObj.nil)).append r) =
      VdfObj.cons k0 v0 (a0.append (VdfObj.cons k v r))
    rw [append_single_cons k v a0 r]

theorem wfKey_no_zero {k : List Nat} (h : k.all wfByte = true) : ∀ b ∈ k, b ≠ 0 := by
  intro b hb
  have := List.all_eq_true.mp h b hb
  simp [wfByte] at this
  omega

theorem parseStep_end {l r0 : List Nat} {idx : Nat} (fuel : Nat) (acc : VdfObj)
    (h : l.drop idx = 8 :: r0) :
    parseObjAux l (fuel + 1) idx acc = (acc, idx + 1) := by
  obtain ⟨g1, _, g3⟩ := drop_eq_cons 0 h
  simp only [parseObjAux]
  rw [if_pos g3, g1, if_pos rfl]

theorem parseStep_str {l k s r0 : List Nat} {idx : Nat} (fuel : Nat) (acc : VdfObj)
    (hk : ∀ b ∈ k, b ≠ 0) (hs : ∀ b ∈ s, b ≠ 0)
    (h : l.drop idx = 1 :: (k ++ 0 :: (s ++ 0 :: r0))) :
    parseObjAux l (fuel + 1) idx acc =
      parseObjAux l fuel (idx + k.length + s.length + 3) (acc.insert k (VdfValue.vstr s)) ∧
      l.drop (idx + k.length + s.length + 3) = r0 := by
  obtain ⟨g1, g2, g3⟩ := drop_eq_cons 0 h
  obtain ⟨rc1, rc2, _⟩ := readCstring_spec g2 hk
  obtain ⟨rs1, rs2, _⟩ := readCstring_spec rc2 hs
  constructor
  · simp only [parseObjAux]
    rw [if_pos g3, g1, if_neg (by decide : ¬(1 : Nat) = 8),
      if_neg (by decide : ¬(1 : Nat) = 0), if_pos (rfl : (1 : Nat) = 1), rc1]
    dsimp only
    rw [rs1]
    dsimp only
    rw [show idx + 1 + k.length + 1 + s.length + 1 = idx + k.length + s.length + 3 from by
      omega]
  · rw [show idx + k.length + s.length + 3 = idx + 1 + k.length + 1 + s.length + 1 from by
      omega]
    exact rs2

theorem parseStep_obj {l k r0 : List Nat} {idx : Nat} (fuel : Nat) (acc : VdfObj)
    (hk : ∀ b ∈ k, b ≠ 0) (h : l.drop idx = 0 :: (k ++ 0 :: r0)) :
    parseObjAux l (fuel + 1) idx acc =
      parseObjAux l fuel (parseObjAux l fuel (idx + k.length + 2) VdfObj.nil).2
        (acc.insert k
          (VdfValue.vobj (parseObjAux l fuel (idx + k.length + 2) VdfObj.nil).1)) ∧
      l.drop (idx + k.length + 2) = r0 := by
  obtain ⟨g1, g2, g3⟩ := drop_eq_cons 0 h
  obtain ⟨rc1, rc2, _⟩ := readCstring_spec g2 hk
  have e : idx + 1 + k.length + 1 = idx + k.length + 2 := by omega
  constructor
  · simp only [parseObjAux]
    rw [if_pos g3, g1, if_neg (by decide : ¬(0 : Nat) = 8), if_pos (rfl : (0 : Nat) = 0), rc1]
    dsimp only
    rw [e]
  · rw [← e]
    exact rc2

theorem parseStep_int32 {l k r0 : List Nat} {idx n : Nat} (fuel : Nat) (acc : VdfObj)
    (hk : ∀ b ∈ k, b ≠ 0) (hn : n < 4294967296)
    (h : l.drop idx = 2 :: (k ++ 0 :: (u32le n ++ r0))) :
    parseObjAux l (fuel + 1) idx acc =
      parseObjAux l fuel (idx + k.length + 6)
        (acc.insert k (VdfValue.vint32 (decodeI32 n))) ∧
      l.drop (idx + k.length + 6) = r0 := by
  obtain ⟨g1, g2, g3⟩ := drop_eq_cons 0 h
  obtain ⟨rc1, rc2, _⟩ := readCstring_spec g2 hk
  obtain ⟨ru1, ru2, ru3⟩ := readU32_spec hn rc2
  constructor
  · simp only [parseObjAux]
    rw [if_pos g3, g1, if_neg (by decide : ¬(2 : Nat) = 8),
      if_neg (by decide : ¬(2 : Nat) = 0), if_neg (by decide : ¬(2 : Nat) = 1),
      if_pos (rfl : (2 : Nat) = 2), rc1]
    dsimp only
    rw [if_neg (by omega : ¬idx + 1 + k.length + 1 + 4 > l.length), ru1]
    rw [show idx + 1 + k.length + 1 + 4 = idx + k.length + 6 from by omega]
  · rw [show idx + k.length + 6 = idx + 1 + k.length + 1 + 4 from by omega]
    exact ru2

theorem parseStep_float {l k r0 : List Nat} {idx n : Nat} (fuel : Nat) (acc : VdfObj)
    (hk : ∀ b ∈ k, b ≠ 0) (hn : n < 4294967296)
    (h : l.drop idx = 3 :: (k ++ 0 :: (u32le n ++ r0))) :
    parseObjAux l (fuel + 1) idx acc =
      parseObjAux l fuel (idx + k.length + 6) (acc.insert k (VdfValue.vfloat n)) ∧
      l.drop (idx + k.length + 6) = r0 := by
  obtain ⟨g1, g2, g3⟩ := drop_eq_cons 0 h
  obtain ⟨rc1, rc2, _⟩ := readCstring_spec g2 hk
  obtain ⟨ru1, ru2, ru3⟩ := readU32_spec hn rc2
  constructor
  · simp only [parseObjAux]
    rw [if_pos g3, g1, if_neg (by decide : ¬(3 : Nat) = 8),
      if_neg (by decide : ¬(3 : Nat) = 0), if_neg (by decide : ¬(3 : Nat) = 1),
      if_neg (by decide : ¬(3 : Nat) = 2), if_pos (rfl : (3 : Nat) = 3), rc1]
    dsimp only
    rw [if_neg (by omega : ¬idx + 1 + k.length + 1 + 4 > l.length), ru1]
    rw [show idx + 1 + k.length + 1 + 4 = idx + k.length + 6 from by omega]
  · rw [show idx + k.length + 6 = idx + 1 + k.length + 1 + 4 from by omega]
    exact ru2

theorem parseStep_ptr {l k r0 : List Nat} {idx n : Nat} (fuel : Nat) (acc : VdfObj)
    (hk : ∀ b ∈ k, b ≠ 0) (hn : n < 4294967296)
    (h : l.drop idx = 4 :: (k ++ 0 :: (u32le n ++ r0))) :
    parseObjAux l (fuel + 1) idx acc =
      parseObjAux l fuel (idx + k.length + 6) (acc.insert k (VdfValue.vptr n)) ∧
      l.drop (idx + k.length + 6) = r0 := by
  obtain ⟨g1, g2, g3⟩ := drop_eq_cons 0 h
  obtain ⟨rc1, rc2, _⟩ := readCstring_spec g2 hk
  obtain ⟨ru1, ru2, ru3⟩ := readU32_spec hn rc2
  constructor
  · simp only [parseObjAux]
    rw [if_pos g3, g1, if_neg (by decide : ¬(4 : Nat) = 8),
      if_neg (by decide : ¬(4 : Nat) = 0), if_neg (by decide : ¬(4 : Nat) = 1),
      if_neg (by decide : ¬(4 : Nat) = 2), if_neg (by decide : ¬(4 : Nat) = 3),
      if_pos (rfl : (4 : Nat) = 4), rc1]
    dsimp only
    rw [if_neg (by omega : ¬idx + 1 + k.length + 1 + 4 > l.length), ru1]
    rw [show idx + 1 + k.length + 1 + 4 = idx + k.length + 6 from by omega]
  · rw [show idx + k.length + 6 = idx + 1 + k.length + 1 + 4 from by omega]
    exact ru2

theorem parseStep_wstr {l k s r0 : List Nat} {idx : Nat} (fuel : Nat) (acc : VdfObj)
    (hk : ∀ b ∈ k, b ≠ 0) (hs : wfWstrBytes s = true)
    (h : l.drop idx = 5 :: (k ++ 0 :: (s ++ 0 :: 0 :: r0))) :
    parseObjAux l (fuel + 1) idx acc =
      parseObjAux l fuel (idx + k.length + s.length + 4)
        (acc.insert k (VdfValue.vwstr s)) ∧
      l.drop (idx + k.length + s.length + 4) = r0 := by
  obtain ⟨g1, g2, g3⟩ := drop_eq_cons 0 h
  obtain ⟨rc1, rc2, _⟩ := readCstring_spec g2 hk
  obtain ⟨rw1, rw2, _⟩ := readWstring_spec hs rc2
  constructor
  · simp only [parseObjAux]
    rw [if_pos g3, g1, if_neg (by decide : ¬(5 : Nat) = 8),
      if_neg (by decide : ¬(5 : Nat) = 0), if_neg (by decide : ¬(5 : Nat) = 1),
      if_neg (by decide : ¬(5 : Nat) = 2), if_neg (by decide : ¬(5 : Nat) = 3),
      if_neg (by decide : ¬(5 : Nat) = 4), if_pos (rfl : (5 : Nat) = 5), rc1]
    dsimp only
    rw [rw1]
    dsimp only
    rw [show idx + 1 + k.length + 1 + s.length + 2 = idx + k.length + s.length + 4 from by
      omega]
  · rw [show idx + k.length + s.length + 4 = idx + 1 + k.length + 1 + s.length + 2 from by
      omega]
    exact rw2

theorem parseStep_color {l k r0 : List Nat} {idx b0 b1 b2 b3 : Nat} (fuel : Nat)
    (acc : VdfObj) (hk : ∀ b ∈ k, b ≠ 0)
    (h : l.drop idx = 6 :: (k ++ 0 :: (b0 :: b1 :: b2 :: b3 :: r0))) :
    parseObjAux l (fuel + 1) idx acc =
      parseObjAux l fuel (idx + k.length + 6)
        (acc.insert k (VdfValue.vcolor b0 b1 b2 b3)) ∧
      l.drop (idx + k.length + 6) = r0 := by
  obtain ⟨g1, g2, g3⟩ := drop_eq_cons 0 h
  obtain ⟨rc1, rc2, _⟩ := readCstring_spec g2 hk
  obtain ⟨c1, c2, _⟩ := drop_eq_cons 0 rc2
  obtain ⟨c3, c4, _⟩ := drop_eq_cons 0 c2
  obtain ⟨c5, c6, _⟩ := drop_eq_cons 0 c4
  obtain ⟨c7, c8, c9⟩ := drop_eq_cons 0 c6
  constructor
  · simp only [parseObjAux]
    rw [if_pos g3, g1, if_neg (by decide : ¬(6 : Nat) = 8),
      if_neg (by decide : ¬(6 : Nat) = 0), if_neg (by decide : ¬(6 : Nat) = 1),
      if_neg (by decide : ¬(6 : Nat) = 2), if_neg (by decide : ¬(6 : Nat) = 3),
      if_neg (by decide : ¬(6 : Nat) = 4), if_neg (by decide : ¬(6 : Nat) = 5),
      if_pos (rfl : (6 : Nat) = 6), rc1]
    dsimp only
    rw [if_neg (by omega : ¬idx + 1 + k.length + 1 + 4 > l.length), c1]
    have e3 : l.getD (idx + 1 + k.length + 1 + 1) 0 = b1 := c3
    have e5 : l.getD (idx + 1 + k.length + 1 + 2) 0 = b2 := by
      rw [show idx + 1 + k.length + 1 + 2 = idx + 1 + k.length + 1 + 1 + 1 from by omega]
      exact c5
    have e7 : l.getD (idx + 1 + k.length + 1 + 3) 0 = b3 := by
      rw [show idx + 1 + k.length + 1 + 3 = idx + 1 + k.length + 1 + 1 + 1 + 1 from by
        omega]
      exact c7
    rw [e3, e5, e7]
    rw [show idx + 1 + k.length + 1 + 4 = idx + k.length + 6 from by omega]
  · rw [show idx + k.length + 6 = idx + 1 + k.length + 1 + 1 + 1 + 1 + 1 from by omega]
    exact c8

theorem parseStep_uint64 {l k r0 : List Nat} {idx n : Nat} (fuel : Nat) (acc : VdfObj)
    (hk : ∀ b ∈ k, b ≠ 0) (hn : n < 18446744073709551616)
    (h : l.drop idx = 7 :: (k ++ 0 :: (u64le n ++ r0))) :
    parseObjAux l (fuel + 1) idx acc =
      parseObjAux l fuel (idx + k.length + 10) (acc.insert k (VdfValue.vuint64 n)) ∧
      l.drop (idx + k.length + 10) = r0 := by
  obtain ⟨g1, g2, g3⟩ := drop_eq_cons 0 h
  obtain ⟨rc1, rc2, _⟩ := readCstring_spec g2 hk
  obtain ⟨ru1, ru2, ru3⟩ := readU64_spec hn rc2
  constructor
  · simp only [parseObjAux]
    rw [if_pos g3, g1, if_neg (by decide : ¬(7 : Nat) = 8),
      if_neg (by decide : ¬(7 : Nat) = 0), if_neg (by decide : ¬(7 : Nat) = 1),
      if_neg (by decide : ¬(7 : Nat) = 2), if_neg (by decide : ¬(7 : Nat) = 3),
      if_neg (by decide : ¬(7 : Nat) = 4), if_neg (by decide : ¬(7 : Nat) = 5),
      if_neg (by decide : ¬(7 : Nat) = 6), if_pos (rfl : (7 : Nat) = 7), rc1]
    dsimp only
    rw [if_neg (by omega : ¬idx + 1 + k.length + 1 + 8 > l.length), ru1]
    rw [show idx + 1 + k.length + 1 + 8 = idx + k.length + 10 from by omega]
  · rw [show idx + k.length + 10 = idx + 1 + k.length + 1 + 8 from by omega]
    exact ru2

theorem drop_append_of_drop {α : Type} {l p t : List α} {i : Nat}
    (h : l.drop i = p ++ t) : l.drop (i + p.length) = t := by
  have h2 := List.drop_drop p.length i l
  rw [h, List.drop_left] at h2
  exact h2.symm

theorem fresh_of_disj {acc : VdfObj} {k : List Nat} {v : VdfValue} {r : VdfObj}
    (hdisj : ∀ k2, keyMem k2 acc = true → keyMem k2 (VdfObj.cons k v r) = false) :
    keyMem k acc = false := by
  cases hc : keyMem k acc
  · rfl
  · have := hdisj k hc
    simp [keyMem] at this

theorem disj_step {acc r : VdfObj} {k : List Nat} {v : VdfValue}
    (hdisj : ∀ k2, keyMem k2 acc = true → keyMem k2 (VdfObj.cons k v r) = false)
    (hnk : keyMem k r = false) (hkfresh : keyMem k acc = false) :
    ∀ k2, keyMem k2 (acc.insert k v) = true → keyMem k2 r = false := by
  intro k2 hmem
  rw [insert_fresh v hkfresh, keyMem_append, Bool.or_eq_true] at hmem
  rcases hmem with h1 | h1
  · have h2 := hdisj k2 h1
    simp only [keyMem, Bool.or_eq_false_iff] at h2
    exact h2.2
  · simp only [keyMem, Bool.or_eq_false_iff, decide_eq_true_eq] at h1
    simp at h1
    rw [← h1]
    exact hnk

mutual
theorem sizeVal_le_encode : ∀ v : VdfValue, sizeVal v ≤ (encodeValue v).length
  | VdfValue.vobj o => sizeObj_le_encode o
  | VdfValue.vstr _ => by simp [sizeVal]
  | VdfValue.vint32 _ => by simp [sizeVal]
  | VdfValue.vfloat _ => by simp [sizeVal]
  | VdfValue.vptr _ => by simp [sizeVal]
  | VdfValue.vwstr _ => by simp [sizeVal]
  | VdfValue.vcolor _ _ _ _ => by simp [sizeVal]
  | VdfValue.vuint64 _ => by simp [sizeVal]
theorem sizeObj_le_encode : ∀ o : VdfObj, sizeObj o ≤ (encodeObjBody o).length
  | VdfObj.nil => by simp [sizeObj, encodeObjBody]
  | VdfObj.cons k v r => by
    have h1 := sizeVal_le_encode v
    have h2 := sizeObj_le_encode r
    simp only [sizeObj, encodeObjBody, List.length_cons, List.length_append]
    omega
end

theorem parse_encode_aux (fuel : Nat) :
    ∀ (o : VdfObj), wfObj o = true → sizeObj o ≤ fuel →
    ∀ (l r0 : List Nat) (idx : Nat) (acc : VdfObj),
      l.drop idx = encodeObjBody o ++ r0 →
      (∀ k2, keyMem k2 acc = true → keyMem k2 o = false) →
      parseObjAux l fuel idx acc = (acc.append o, idx + (encodeObjBody o).length) := by
  induction fuel with
  | zero =>
    intro o hwf hsz l r0 idx acc h hdisj
    exfalso
    cases o with
    | nil => simp [sizeObj] at hsz
    | cons k v r => simp [sizeObj] at hsz
  | succ f ih =>
    intro o hwf hsz l r0 idx acc h hdisj
    cases o with
    | nil =>
      have h' : l.drop idx = 8 :: r0 := by simpa [encodeObjBody] using h
      rw [parseStep_end f acc h', vdfObj_append_nil]
      simp [encodeObjBody]
    | cons k v r =>
      simp only [wfObj, Bool.and_eq_true, Bool.not_eq_true'] at hwf
      obtain ⟨⟨⟨hk, hv⟩, hnk⟩, hr⟩ := hwf
      have hknz := wfKey_no_zero hk
      have hkfresh : keyMem k acc = false := fresh_of_disj hdisj
      have hdisj2 := disj_step hdisj hnk hkfresh
      have hszr : sizeObj r ≤ f := by simp only [sizeObj] at hsz; omega
      cases v with
      | vobj inner =>
        have hwin : wfObj inner = true := by simpa [wfVal] using hv
        have hszin : sizeObj inner ≤ f := by simp only [sizeObj, sizeVal] at hsz; omega
        have h' : l.drop idx =
            0 :: (k ++ 0 :: (encodeObjBody inner ++ (encodeObjBody r ++ r0))) := by
          simpa [encodeObjBody, encodeValue] using h
        obtain ⟨st1, st2⟩ := parseStep_obj f acc hknz h'
        have ihin := ih inner hwin hszin l (encodeObjBody r ++ r0) (idx + k.length + 2)
          VdfObj.nil st2 (by intro k2 hm; simp [keyMem] at hm)
        simp only [VdfObj.append] at ihin
        rw [ihin] at st1
        dsimp only at st1
        have st2' := drop_append_of_drop st2
        have ihr := ih r hr hszr l r0 (idx + k.length + 2 + (encodeObjBody inner).length)
          (acc.insert k (VdfValue.vobj inner)) st2' hdisj2
        rw [st1, ihr, insert_fresh _ hkfresh, append_single_cons]
        simp only [Prod.mk.injEq]
        refine ⟨by trivial, ?_⟩
        simp only [encodeObjBody, encodeValue, List.length_cons, List.length_append, List.length_nil]
        omega
      | vstr s =>
        have hsnz : ∀ b ∈ s, b ≠ 0 := wfKey_no_zero (by simpa [wfVal] using hv)
        have h' : l.drop idx = 1 :: (k ++ 0 :: (s ++ 0 :: (encodeObjBody r ++ r0))) := by
          simpa [encodeObjBody, encodeValue] using h
        obtain ⟨st1, st2⟩ := parseStep_str f acc hknz hsnz h'
        have ihr := ih r hr hszr l r0 (idx + k.length + s.length + 3)
          (acc.insert k (VdfValue.vstr s)) st2 hdisj2
        rw [st1, ihr, insert_fresh _ hkfresh, append_single_cons]
        simp only [Prod.mk.injEq]
        refine ⟨by trivial, ?_⟩
        simp only [encodeObjBody, encodeValue, List.length_cons, List.length_append, List.length_nil]
        omega
      | vint32 iv =>
        have hb : -2147483648 ≤ iv ∧ iv < 2147483648 := by simpa [wfVal] using hv
        obtain ⟨hd, he⟩ := decodeI32_encodeI32 hb.1 hb.2
        have h' : l.drop idx =
            2 :: (k ++ 0 :: (u32le (encodeI32 iv) ++ (encodeObjBody r ++ r0))) := by
          simpa [encodeObjBody, encodeValue] using h
        obtain ⟨st1, st2⟩ := parseStep_int32 f acc hknz he h'
        rw [hd] at st1
        have ihr := ih r hr hszr l r0 (idx + k.length + 6)
          (acc.insert k (VdfValue.vint32 iv)) st2 hdisj2
        rw [st1, ihr, insert_fresh _ hkfresh, append_single_cons]
        simp only [Prod.mk.injEq]
        refine ⟨by trivial, ?_⟩
        simp only [encodeObjBody, encodeValue, List.length_cons, List.length_append, List.length_nil, u32le]
        omega
      | vfloat bits =>
        have hb : bits < 4294967296 := by simpa [wfVal] using hv
        have h' : l.drop idx =
            3 :: (k ++ 0 :: (u32le bits ++ (encodeObjBody r ++ r0))) := by
          simpa [encodeObjBody, encodeValue] using h
        obtain ⟨st1, st2⟩ := parseStep_float f acc hknz hb h'
        have ihr := ih r hr hszr l r0 (idx + k.length + 6)
          (acc.insert k (VdfValue.vfloat bits)) st2 hdisj2
        rw [st1, ihr, insert_fresh _ hkfresh, append_single_cons]
        simp only [Prod.mk.injEq]
        refine ⟨by trivial, ?_⟩
        simp only [encodeObjBody, encodeValue, List.length_cons, List.length_append, List.length_nil, u32le]
        omega
      | vptr n =>
        have hb : n < 4294967296 := by simpa [wfVal] using hv
        have h' : l.drop idx = 4 :: (k ++ 0 :: (u32le n ++ (encodeObjBody r ++ r0))) := by
          simpa [encodeObjBody, encodeValue] using h
        obtain ⟨st1, st2⟩ := parseStep_ptr f acc hknz hb h'
        have ihr := ih r hr hszr l r0 (idx + k.length + 6)
          (acc.insert k (VdfValue.vptr n)) st2 hdisj2
        rw [st1, ihr, insert_fresh _ hkfresh, append_single_cons]
        simp only [Prod.mk.injEq]
        refine ⟨by trivial, ?_⟩
        simp only [encodeObjBody, encodeValue, List.length_cons, List.length_append, List.length_nil, u32le]
        omega
      | vwstr s =>
        have hws : wfWstrBytes s = true := by simpa [wfVal] using hv
        have h' : l.drop idx =
            5 :: (k ++ 0 :: (s ++ 0 :: 0 :: (encodeObjBody r ++ r0))) := by
          simpa [encodeObjBody, encodeValue] using h
        obtain ⟨st1, st2⟩ := parseStep_wstr f acc hknz hws h'
        have ihr := ih r hr hszr l r0 (idx + k.length + s.length + 4)
          (acc.insert k (VdfValue.vwstr s)) st2 hdisj2
        rw [st1, ihr, insert_fresh _ hkfresh, append_single_cons]
        simp only [Prod.mk.injEq]
        refine ⟨by trivial, ?_⟩
        simp only [encodeObjBody, encodeValue, List.length_cons, List.length_append, List.length_nil]
        omega
      | vcolor b0 b1 b2 b3 =>
        have h' : l.drop idx =
            6 :: (k ++ 0 :: (b0 :: b1 :: b2 :: b3 :: (encodeObjBody r ++ r0))) := by
          simpa [encodeObjBody, encodeValue] using h
        obtain ⟨st1, st2⟩ := parseStep_color f acc hknz h'
        have ihr := ih r hr hszr l r0 (idx + k.length + 6)
          (acc.insert k (VdfValue.vcolor b0 b1 b2 b3)) st2 hdisj2
        rw [st1, ihr, insert_fresh _ hkfresh, append_single_cons]
        simp only [Prod.mk.injEq]
        refine ⟨by trivial, ?_⟩
        simp only [encodeObjBody, encodeValue, List.length_cons, List.length_append, List.length_nil]
        omega
      | vuint64 n =>
        have hb : n < 18446744073709551616 := by simpa [wfVal] using hv
        have h' : l.drop idx = 7 :: (k ++ 0 :: (u64le n ++ (encodeObjBody r ++ r0))) := by
          simpa [encodeObjBody, encodeValue] using h
        obtain ⟨st1, st2⟩ := parseStep_uint64 f acc hknz hb h'
        have ihr := ih r hr hszr l r0 (idx + k.length + 10)
          (acc.insert k (VdfValue.vuint64 n)) st2 hdisj2
        rw [st1, ihr, insert_fresh _ hkfresh, append_single_cons]
        simp only [Prod.mk.injEq]
        refine ⟨by trivial, ?_⟩
        simp only [encodeObjBody, encodeValue, List.length_cons, List.length_append, List.length_nil, u64le]
        omega

/-- C1: for every byte buffer and starting offset, the binary KeyValues
parser (`parseObjAux`, embedding `parse_obj` of `_parse_binary_vdf`) is a
total function, and when the leading tag byte is unrecognized, or a
fixed-size field (4 bytes for tags 2, 3, 4, 6; 8 bytes for tag 7) would read
past the buffer end, it aborts at that point and returns the object decoded
so far together with an offset equal to the buffer length. -/
theorem parse_binary_vdf_abort (data : List Nat) (fuel idx : Nat) (acc : VdfObj)
    (h : idx < data.length) :
    (data.getD idx 0 ∉ ([0, 1, 2, 3, 4, 5, 6, 7, 8] : List Nat) →
      parseObjAux data (fuel + 1) idx acc = (acc, data.length)) ∧
    ((data.getD idx 0 = 2 ∨ data.getD idx 0 = 3 ∨ data.getD idx 0 = 4 ∨
        data.getD idx 0 = 6) →
      (readCstring data (idx + 1)).2 + 4 > data.length →
      parseObjAux data (fuel + 1) idx acc = (acc, data.length)) ∧
    (data.getD idx 0 = 7 →
      (readCstring data (idx + 1)).2 + 8 > data.length →
      parseObjAux data (fuel + 1) idx acc = (acc, data.length)) := by
  refine ⟨?_, ?_, ?_⟩
  · intro hno
    simp only [List.mem_cons, List.mem_singleton] at hno
    push_neg at hno
    obtain ⟨h0, h1, h2, h3, h4, h5, h6, h7, h8, -⟩ := hno
    simp only [parseObjAux]
    rw [if_pos h, if_neg h8, if_neg h0, if_neg h1, if_neg h2, if_neg h3, if_neg h4,
      if_neg h5, if_neg h6, if_neg h7]
  · intro ht hg
    rcases ht with h2 | h3 | h4 | h6
    · simp only [parseObjAux]
      rw [if_pos h, h2, if_neg (by decide : ¬(2 : Nat) = 8),
        if_neg (by decide : ¬(2 : Nat) = 0), if_neg (by decide : ¬(2 : Nat) = 1),
        if_pos (rfl : (2 : Nat) = 2), if_pos hg]
    · simp only [parseObjAux]
      rw [if_pos h, h3, if_neg (by decide : ¬(3 : Nat) = 8),
        if_neg (by decide : ¬(3 : Nat) = 0), if_neg (by decide : ¬(3 : Nat) = 1),
        if_neg (by decide : ¬(3 : Nat) = 2), if_pos (rfl : (3 : Nat) = 3), if_pos hg]
    · simp only [parseObjAux]
      rw [if_pos h, h4, if_neg (by decide : ¬(4 : Nat) = 8),
        if_neg (by decide : ¬(4 : Nat) = 0), if_neg (by decide : ¬(4 : Nat) = 1),
        if_neg (by decide : ¬(4 : Nat) = 2), if_neg (by decide : ¬(4 : Nat) = 3),
        if_pos (rfl : (4 : Nat) = 4), if_pos hg]
    · simp only [parseObjAux]
      rw [if_pos h, h6, if_neg (by decide : ¬(6 : Nat) = 8),
        if_neg (by decide : ¬(6 : Nat) = 0), if_neg (by decide : ¬(6 : Nat) = 1),
        if_neg (by decide : ¬(6 : Nat) = 2), if_neg (by decide : ¬(6 : Nat) = 3),
        if_neg (by decide : ¬(6 : Nat) = 4), if_neg (by decide : ¬(6 : Nat) = 5),
        if_pos (rfl : (6 : Nat) = 6), if_pos hg]
  · intro h7 hg
    simp only [parseObjAux]
    rw [if_pos h, h7, if_neg (by decide : ¬(7 : Nat) = 8),
      if_neg (by decide : ¬(7 : Nat) = 0), if_neg (by decide : ¬(7 : Nat) = 1),
      if_neg (by decide : ¬(7 : Nat) = 2), if_neg (by decide : ¬(7 : Nat) = 3),
      if_neg (by decide : ¬(7 : Nat) = 4), if_neg (by decide : ¬(7 : Nat) = 5),
      if_neg (by decide : ¬(7 : Nat) = 6), if_pos (rfl : (7 : Nat) = 7), if_pos hg]

/-- Witness for C1 at the concrete buffer `[2, 0]`: tag 2 (int32) with empty
key and no remaining bytes for the 4-byte field aborts with the empty object
and offset 2 (the buffer length). -/
theorem parse_binary_vdf_abort_witness :
    0 < ([2, 0] : List Nat).length ∧
      parseObjAux [2, 0] 1 0 VdfObj.nil = (VdfObj.nil, 2) :=
  ⟨by decide,
    (parse_binary_vdf_abort [2, 0] 0 0 VdfObj.nil (by decide)).2.1 (by decide) (by decide)⟩

/-- C2 counterexample: laying out a well-formed tree exactly as the claim
words it (the NUL-terminated key PRECEDING the tag byte) does not decode back
to the tree: for the one-entry tree mapping key `k` (byte 107) to string `v`
(byte 118), the parser hits the key byte 107 where it expects a tag, treats
it as unrecognized and returns the empty object. -/
theorem parse_binary_vdf_claim_order_fails :
    wfObj (VdfObj.cons [107] (VdfValue.vstr [118]) VdfObj.nil) = true ∧
    parseBinaryVdf
        (encodeObjClaimOrder (VdfObj.cons [107] (VdfValue.vstr [118]) VdfObj.nil)) ≠
      VdfObj.cons [107] (VdfValue.vstr [118]) VdfObj.nil := by
  constructor
  · decide
  · intro hq
    have hnil : parseBinaryVdf
        (encodeObjClaimOrder (VdfObj.cons [107] (VdfValue.vstr [118]) VdfObj.nil)) =
        VdfObj.nil := rfl
    rw [hnil] at hq
    exact VdfObj.noConfusion hq

/-- C2 (amended): for every well-formed binary KeyValues blob — each entry
being a tag byte FOLLOWED by its NUL-terminated key and then the value
payload per the tag table (0x00 nested object until an 0x08 end tag, 0x01
NUL-terminated string, 0x02 4-byte little-endian signed int, 0x03 4-byte
little-endian float, 0x04 4-byte unsigned, 0x05 NUL-terminated UTF-16LE
string, 0x06 4 raw bytes, 0x07 8-byte little-endian unsigned, 0x08 ending
the level without a key) — decoding with `parseBinaryVdf` yields exactly the
original tree. -/
theorem parse_binary_vdf_roundtrip (o : VdfObj) (hwf : wfObj o = true) :
    parseBinaryVdf (encodeObjBody o) = o := by
  unfold parseBinaryVdf
  have hsz : sizeObj o ≤ (encodeObjBody o).length + 1 := by
    have := sizeObj_le_encode o
    omega
  have h := parse_encode_aux ((encodeObjBody o).length + 1) o hwf hsz (encodeObjBody o)
    [] 0 VdfObj.nil (by simp) (by intro k2 hm; simp [keyMem] at hm)
  rw [h]
  simp [VdfObj.append]

/-- Witness for C2 on a concrete tree exercising every value kind. -/
theorem parse_binary_vdf_roundtrip_witness :
    wfObj sampleVdfTree = true ∧
      parseBinaryVdf (encodeObjBody sampleVdfTree) = sampleVdfTree :=
  ⟨by decide, parse_binary_vdf_roundtrip sampleVdfTree (by decide)⟩

theorem lookupA_pyInsert {α β : Type} [DecidableEq α] (k k2 : α) (v : β) :
    ∀ l : List (α × β),
      lookupA (pyInsert l k v) k2 = if k2 = k then some v else lookupA l k2
  | [] => by
    by_cases h : k2 = k
    · subst h; simp [pyInsert, lookupA]
    · simp only [pyInsert, lookupA, if_neg h, if_neg (fun w : k = k2 => h w.symm)]
  | (k0, v0) :: rest => by
    by_cases h0 : k0 = k
    · subst h0
      simp only [pyInsert, if_pos rfl, lookupA]
      by_cases h : k2 = k0
      · subst h; simp
      · simp only [if_neg (fun w : k0 = k2 => h w.symm), if_neg h]
    · simp only [pyInsert, if_neg h0, lookupA]
      by_cases h : k0 = k2
      · subst h
        simp [h0]
      · simp [h, lookupA_pyInsert k k2 v rest]

theorem keys_pyInsert {α β : Type} [DecidableEq α] (k : α) (v : β) :
    ∀ l : List (α × β),
      (pyInsert l k v).map Prod.fst =
        if k ∈ l.map Prod.fst then l.map Prod.fst else l.map Prod.fst ++ [k]
  | [] => by simp [pyInsert]
  | (k0, v0) :: rest => by
    by_cases h0 : k0 = k
    · subst h0
      simp [pyInsert]
    · have ih := keys_pyInsert k v rest
      have hne : ¬k = k0 := fun w => h0 w.symm
      by_cases hm : k ∈ rest.map Prod.fst
      · simp [pyInsert, h0, ih, hm, hne]
      · simp [pyInsert, h0, ih, hm, hne]

theorem pyInsert_nodup {α β : Type} [DecidableEq α] {k : α} {v : β}
    {l : List (α × β)} (h : (l.map Prod.fst).Nodup) :
    ((pyInsert l k v).map Prod.fst).Nodup := by
  rw [keys_pyInsert]
  by_cases hm : k ∈ l.map Prod.fst
  · simp [hm, h]
  · simp only [if_neg hm]
    exact List.Nodup.append h (by simp) (by simp [List.disjoint_left, hm])

theorem mem_pyInsert {α β : Type} [DecidableEq α] {k : α} {v : β} (p : α × β) :
    ∀ l : List (α × β), p ∈ pyInsert l k v → p = (k, v) ∨ p ∈ l := by
  intro l
  induction l with
  | nil => intro h; simpa [pyInsert] using h
  | cons hd rest ih =>
    obtain ⟨k0, v0⟩ := hd
    intro h
    by_cases h0 : k0 = k
    · subst h0
      simp only [pyInsert, eq_self_iff_true, if_true, List.mem_cons] at h
      rcases h with h | h
      · exact Or.inl h
      · exact Or.inr (List.mem_cons_of_mem _ h)
    · simp only [pyInsert, if_neg h0, List.mem_cons] at h
      rcases h with h | h
      · exact Or.inr (by simp [h])
      · rcases ih h with h2 | h2
        · exact Or.inl h2
        · exact Or.inr (by simp [h2])

theorem lookupA_some_of_mem {α β : Type} [DecidableEq α] :
    ∀ {l : List (α × β)} {k : α} {v : β},
      (l.map Prod.fst).Nodup → (k, v) ∈ l → lookupA l k = some v
  | [], k, v, _, hm => by simp at hm
  | (k0, v0) :: rest, k, v, hnd, hm => by
    rw [List.map_cons, List.nodup_cons] at hnd
    simp only [List.mem_cons] at hm
    rcases hm with hm | hm
    · injection hm.symm with h1 h2
      subst h1
      subst h2
      simp [lookupA]
    · have hk : ¬k0 = k := by
        intro w
        subst w
        exact hnd.1 (List.mem_map.mpr ⟨(k0, v), hm, rfl⟩)
      simp only [lookupA, if_neg hk]
      exact lookupA_some_of_mem hnd.2 hm

theorem foldl_preserve_mem {α β : Type} (f : β → α → β) (P : β → Prop) (Q : α → Prop)
    (hf : ∀ b a, Q a → P b → P (f b a)) :
    ∀ l : List α, (∀ a ∈ l, Q a) → ∀ b, P b → P (l.foldl f b)
  | [], _, b, hb => hb
  | a :: l, hq, b, hb =>
    foldl_preserve_mem f P Q hf l (fun x hx => hq x (by simp [hx])) (f b a)
      (hf b a (hq a (by simp)) hb)

theorem insertSorted_perm {α : Type} (le : α → α → Bool) (x : α) :
    ∀ l : List α, List.Perm (insertSorted le x l) (x :: l)
  | [] => List.Perm.refl _
  | y :: ys => by
    by_cases h : le y x = true
    · simp only [insertSorted, if_pos h]
      exact ((insertSorted_perm le x ys).cons y).trans (List.Perm.swap x y ys)
    · simp only [insertSorted, if_neg h]
      exact List.Perm.refl _

theorem sortBy_aux_perm {α : Type} (le : α → α → Bool) :
    ∀ (l acc : List α),
      List.Perm (l.foldl (fun acc x => insertSorted le x acc) acc) (acc ++ l)
  | [], acc => by simp
  | x :: xs, acc => by
    have h1 := sortBy_aux_perm le xs (insertSorted le x acc)
    have h2 : List.Perm (insertSorted le x acc ++ xs) ((x :: acc) ++ xs) :=
      (insertSorted_perm le x acc).append_right xs
    have h3 : List.Perm ((x :: acc) ++ xs) (acc ++ x :: xs) := by
      simp only [List.cons_append]
      exact (List.perm_middle).symm
    exact (h1.trans h2).trans h3

theorem sortBy_perm {α : Type} (le : α → α → Bool) (l : List α) :
    List.Perm (sortBy le l) l := by
  have h := sortBy_aux_perm le l []
  simpa [sortBy] using h

theorem manifestGames_nodup (ms : List RawManifest) :
    ((manifestGames ms).map Prod.fst).Nodup := by
  unfold manifestGames
  refine foldl_preserve_mem _
    (fun g : List (List Char × List Char) => (g.map Prod.fst).Nodup) (fun _ => True)
    ?_ ms (fun _ _ => trivial) [] (by simp)
  intro b m _ hb
  rcases hp : m.parsed with - | ⟨appid0, name⟩
  · simpa [hp] using hb
  · simp only [hp]
    split
    · split
      · exact pyInsert_nodup hb
      · exact hb
    · split
      · exact pyInsert_nodup hb
      · exact hb

theorem shortcutsMerge_nodup (games : List (List Char × List Char))
    (ss : List ShortcutEntry) (h : (games.map Prod.fst).Nodup) :
    ((shortcutsMergeGames games ss).map Prod.fst).Nodup := by
  unfold shortcutsMergeGames
  refine foldl_preserve_mem _
    (fun g : List (List Char × List Char) => (g.map Prod.fst).Nodup) (fun _ => True)
    ?_ ss (fun _ _ => trivial) games h
  intro b sc _ hb
  dsimp only
  split
  · exact pyInsert_nodup hb
  · exact hb

theorem shortcutsMerge_lookup (games : List (List Char × List Char))
    (ss : List ShortcutEntry) (a n : List Char) (h : lookupA games a = some n) :
    lookupA (shortcutsMergeGames games ss) a = some n := by
  unfold shortcutsMergeGames
  refine foldl_preserve_mem _
    (fun g : List (List Char × List Char) => lookupA g a = some n) (fun _ => True)
    ?_ ss (fun _ _ => trivial) games h
  intro b sc _ hb
  dsimp only
  split
  · rename_i hg
    rw [lookupA_pyInsert]
    have hne : ¬a = sc.appid := by
      intro w
      rw [w] at hb
      rw [hg.2.2] at hb
      simp at hb
    rw [if_neg hne]
    exact hb
  · exact hb

theorem manifestGames_runtime_free (ms : List RawManifest) :
    ∀ p ∈ manifestGames ms, isSteamRuntime p.2 none (some p.1) = false := by
  unfold manifestGames
  refine foldl_preserve_mem _
    (fun g : List (List Char × List Char) =>
      ∀ p ∈ g, isSteamRuntime p.2 none (some p.1) = false) (fun _ => True)
    ?_ ms (fun _ _ => trivial) [] (by simp)
  intro b m _ hb
  rcases hp : m.parsed with - | ⟨appid0, name⟩
  · simpa [hp] using hb
  · simp only [hp]
    split
    · split
      · rename_i hg
        intro p hmem
        rcases mem_pyInsert p b hmem with h2 | h2
        · rw [h2]
          exact hg.2
        · exact hb p h2
      · exact hb
    · split
      · rename_i hg
        intro p hmem
        rcases mem_pyInsert p b hmem with h2 | h2
        · rw [h2]
          exact hg.2
        · exact hb p h2
      · exact hb

theorem shortcutsMerge_runtime_free (games : List (List Char × List Char))
    (ss : List ShortcutEntry)
    (hg : ∀ p ∈ games, isSteamRuntime p.2 none (some p.1) = false)
    (hss : ∀ sc ∈ ss, isSteamRuntime sc.name none (some sc.appid) = false) :
    ∀ p ∈ shortcutsMergeGames games ss, isSteamRuntime p.2 none (some p.1) = false := by
  unfold shortcutsMergeGames
  refine foldl_preserve_mem _
    (fun g : List (List Char × List Char) =>
      ∀ p ∈ g, isSteamRuntime p.2 none (some p.1) = false)
    (fun sc : ShortcutEntry => isSteamRuntime sc.name none (some sc.appid) = false)
    ?_ ss hss games hg
  intro b sc hq hb
  dsimp only
  split
  · intro p hmem
    rcases mem_pyInsert p b hmem with h2 | h2
    · rw [h2]
      exact hq
    · exact hb p h2
  · exact hb

/-- C5 counterexample: in the `(appid, name, installPath)` query
(`get_steam_installed_game_paths`), shortcuts are appended without any appid
deduplication against manifests, so a manifest for appid 400 and a shortcut
for the same appid 400 yield TWO catalog entries with appid 400. -/
theorem installed_game_paths_duplicate_appid :
    ¬((getSteamInstalledGamePaths sampleManifestsD sampleShortcuts).map
        (fun t => t.1)).Nodup := by
  decide

/-- C5 (amended): in the `(appid, name)` query (`get_steam_installed_games`)
each appid occurs at most once, and when a manifest and a shortcut share an
appid the manifest's name is used and the shortcut is skipped.  The
`(appid, name, installPath)` query does not deduplicate shortcut appids
against manifests, so the uniqueness invariant holds only for the first
query. -/
theorem installed_games_unique_manifest_wins (ms : List RawManifest)
    (ss : List ShortcutEntry) :
    ((getSteamInstalledGames ms ss).map Prod.fst).Nodup ∧
    (∀ a n n2, (a, n) ∈ getSteamInstalledGames ms ss →
      lookupA (manifestGames ms) a = some n2 → n = n2) := by
  have hmg := manifestGames_nodup ms
  have hmerged := shortcutsMerge_nodup (manifestGames ms) ss hmg
  have hperm := sortBy_perm (fun a b => lexLe (lowerChars a.2) (lowerChars b.2))
    (shortcutsMergeGames (manifestGames ms) ss)
  constructor
  · unfold getSteamInstalledGames
    exact ((hperm.map Prod.fst).symm).nodup hmerged
  · intro a n n2 hmem hlook
    unfold getSteamInstalledGames at hmem
    have hmem2 : (a, n) ∈ shortcutsMergeGames (manifestGames ms) ss :=
      hperm.mem_iff.mp hmem
    have hl2 := shortcutsMerge_lookup (manifestGames ms) ss a n2 hlook
    have hl3 := lookupA_some_of_mem hmerged hmem2
    rw [hl2] at hl3
    injection hl3 with h
    exact h.symm

/-- Witness for C5 at the concrete manifest/shortcut pair sharing appid 400:
the manifest entry is present, the catalog keys are duplicate-free, and the
name stored for appid 400 is the manifest's. -/
theorem installed_games_unique_manifest_wins_witness :
    (toL "400", toL "Portal") ∈ getSteamInstalledGames sampleManifests sampleShortcuts ∧
      lookupA (manifestGames sampleManifests) (toL "400") = some (toL "Portal") ∧
      ((getSteamInstalledGames sampleManifests sampleShortcuts).map Prod.fst).Nodup ∧
      toL "Portal" = toL "Portal" :=
  ⟨by decide, by decide,
    (installed_games_unique_manifest_wins sampleManifests sampleShortcuts).1,
    (installed_games_unique_manifest_wins sampleManifests sampleShortcuts).2
      (toL "400") (toL "Portal") (toL "Portal") (by decide) (by decide)⟩

/-- C9 counterexample: a SHORTCUT with appid 1391110 is not runtime-filtered
(the shortcut merge loop applies no `_is_steam_runtime` check), so an entry
with appid 1391110 appears in the game catalog. -/
theorem runtime_appid_shortcut_included :
    (toL "1391110", toL "Cool Game") ∈ getSteamInstalledGames [] runtimeShortcuts := by
  decide

theorem runtime_appid_1391110 (n : List Char) :
    isSteamRuntime n none (some (toL "1391110")) = true := by
  unfold isSteamRuntime
  rw [show runtimeAppidCheck (some (toL "1391110")) = true from by decide]
  rfl

/-- C9 (amended): manifest-derived entries matching the known runtime/tool
appids or whose name contains the runtime substrings (case-insensitive) are
excluded from the `(appid, name)` catalog even with no type metadata; since
shortcuts bypass this filter, the catalog-wide guarantee (in particular "no
entry with appid 1391110") holds whenever no shortcut itself carries a
runtime appid or name. -/
theorem catalog_runtime_filter_manifests (ms : List RawManifest)
    (ss : List ShortcutEntry)
    (hss : ∀ sc ∈ ss, isSteamRuntime sc.name none (some sc.appid) = false) :
    (∀ p ∈ getSteamInstalledGames ms ss, isSteamRuntime p.2 none (some p.1) = false) ∧
    (∀ p ∈ getSteamInstalledGames ms ss, p.1 ≠ toL "1391110") := by
  have hmf := shortcutsMerge_runtime_free (manifestGames ms) ss
    (manifestGames_runtime_free ms) hss
  have hperm := sortBy_perm (fun a b => lexLe (lowerChars a.2) (lowerChars b.2))
    (shortcutsMergeGames (manifestGames ms) ss)
  have hall : ∀ p ∈ getSteamInstalledGames ms ss,
      isSteamRuntime p.2 none (some p.1) = false := by
    intro p hp
    unfold getSteamInstalledGames at hp
    exact hmf p (hperm.mem_iff.mp hp)
  refine ⟨hall, ?_⟩
  intro p hp w
  have h1 := hall p hp
  rw [w, runtime_appid_1391110 p.2] at h1
  exact Bool.noConfusion h1

/-- Witness for C9: with a runtime manifest (appid 1391110) and an ordinary
game manifest present and no shortcuts, the surviving entry is runtime-free
and its appid is not 1391110. -/
theorem catalog_runtime_filter_manifests_witness :
    isSteamRuntime (toL "ok") none (some (toL "5")) = false ∧
      (toL "5", toL "ok").1 ≠ toL "1391110" :=
  ⟨(catalog_runtime_filter_manifests runtimeManifests []
      (fun sc h => absurd h (List.not_mem_nil sc))).1 (toL "5", toL "ok") (by decide),
   (catalog_runtime_filter_manifests runtimeManifests []
      (fun sc h => absurd h (List.not_mem_nil sc))).2 (toL "5", toL "ok") (by decide)⟩

/-- C3 (spec-modelled, the app-info consuming catalog revision is not among
the supplied sources): when the AppInfoIndex mapping is non-empty, the type
filter drops every manifest whose appid has a recorded type that is not
"game" while keeping manifests whose appid has no recorded type; when the
index is empty, no manifest is dropped at all. -/
theorem app_info_type_filter_spec (index : List (List Char × List Char))
    (ms : List (List Char × List Char)) :
    (index = [] → applyAppInfoTypeFilter index ms = ms) ∧
    (index ≠ [] → ∀ m ∈ ms, ∀ t, lookupA index m.1 = some t → t ≠ toL "game" →
      m ∉ applyAppInfoTypeFilter index ms) ∧
    (index ≠ [] → ∀ m ∈ ms, lookupA index m.1 = none →
      m ∈ applyAppInfoTypeFilter index ms) := by
  refine ⟨?_, ?_, ?_⟩
  · intro h
    simp [applyAppInfoTypeFilter, h]
  · intro h m _ t hl ht hmem
    unfold applyAppInfoTypeFilter at hmem
    rw [if_neg h] at hmem
    have hp := (List.mem_filter.mp hmem).2
    simp only [hl] at hp
    simp at hp
    exact ht hp
  · intro h m hm hl
    unfold applyAppInfoTypeFilter
    rw [if_neg h]
    refine List.mem_filter.mpr ⟨hm, ?_⟩
    simp [hl]

/-- Witness for C3 on a concrete index and manifest list: the "tool"-typed
manifest is dropped, the untyped one is kept, and the empty index filters
nothing. -/
theorem app_info_type_filter_spec_witness :
    (toL "10", toL "A") ∉ applyAppInfoTypeFilter sampleAppInfoIdx sampleTypedManifests ∧
      (toL "20", toL "B") ∈ applyAppInfoTypeFilter sampleAppInfoIdx sampleTypedManifests ∧
      applyAppInfoTypeFilter [] sampleTypedManifests = sampleTypedManifests :=
  ⟨(app_info_type_filter_spec sampleAppInfoIdx sampleTypedManifests).2.1 (by decide)
      (toL "10", toL "A") (by decide) (toL "tool") (by decide) (by decide),
   (app_info_type_filter_spec sampleAppInfoIdx sampleTypedManifests).2.2 (by decide)
      (toL "20", toL "B") (by decide) (by decide),
   (app_info_type_filter_spec [] sampleTypedManifests).1 rfl⟩

theorem encodeAppInfoRecs_length_ge :
    ∀ recs : List (Nat × List Nat), recs.length ≤ (encodeAppInfoRecs recs).length
  | [] => by simp [encodeAppInfoRecs]
  | r :: rest => by
    have := encodeAppInfoRecs_length_ge rest
    simp only [encodeAppInfoRecs, encodeAppInfoRec, u32le, List.length_cons,
      List.length_append]
    simp
    omega

theorem readU32_shift {l t : List Nat} (i j : Nat) (h : l.drop i = t) :
    readU32 l (i + j) = readU32 t j := by
  rw [← h]
  unfold readU32
  simp only [getD_drop]
  rw [show i + j + 1 = i + (j + 1) from by omega, show i + j + 2 = i + (j + 2) from by
    omega, show i + j + 3 = i + (j + 3) from by omega]

theorem scanRecords_spec :
    ∀ (recs : List (Nat × List Nat)) (data tail : List Nat) (idx fuel : Nat),
      (∀ r ∈ recs, r.1 ≠ 0 ∧ r.1 < 4294967296 ∧ r.2 ≠ [] ∧ r.2.length < 4294967296) →
      data.drop idx = encodeAppInfoRecs recs ++ tail →
      8 ≤ tail.length →
      (readU32 tail 0 = 0 ∨ readU32 tail 4 = 0 ∨ 8 + readU32 tail 4 > tail.length) →
      recs.length + 1 ≤ fuel →
      scanRecords data fuel idx = recs := by
  intro recs
  induction recs with
  | nil =>
    intro data tail idx fuel _ h ht hbad hf
    simp only [encodeAppInfoRecs, List.nil_append] at h
    have hlen := List.length_drop idx data
    rw [h] at hlen
    have hidx : idx ≤ data.length := by
      by_contra hc
      have hnil : data.drop idx = [] := List.drop_eq_nil_of_le (by omega)
      rw [hnil] at h
      rw [← h] at ht
      simp at ht
    cases fuel with
    | zero => omega
    | succ f =>
      have ha := readU32_shift idx 0 h
      have hs := readU32_shift idx 4 h
      simp only [Nat.add_zero] at ha
      simp only [scanRecords]
      rw [if_neg (by omega : ¬idx + 8 > data.length), ha, hs]
      by_cases hz : readU32 tail 0 = 0
      · simp [hz]
      · rw [if_neg hz]
        have hcond : readU32 tail 4 = 0 ∨ idx + 8 + readU32 tail 4 > data.length := by
          rcases hbad with hb | hb | hb
          · exact absurd hb hz
          · exact Or.inl hb
          · exact Or.inr (by omega)
        rw [if_pos hcond]
  | cons r rest ih =>
    intro data tail idx fuel hv h ht hbad hf
    obtain ⟨a, blob⟩ := r
    obtain ⟨ha0, haB, hbne, hbB⟩ := hv (a, blob) (by simp)
    simp only [encodeAppInfoRecs, encodeAppInfoRec, List.append_assoc] at h
    obtain ⟨r1, r2, r3⟩ := readU32_spec haB h
    obtain ⟨s1, s2, s3⟩ := readU32_spec hbB r2
    rw [show idx + 4 + 4 = idx + 8 from by omega] at s2 s3
    have hblen := List.length_drop (idx + 8) data
    rw [s2] at hblen
    simp only [List.length_append] at hblen
    cases fuel with
    | zero => simp at hf
    | succ f =>
      simp only [scanRecords]
      rw [if_neg (by omega : ¬idx + 8 > data.length), r1, if_neg ha0, s1]
      have hcond : ¬(blob.length = 0 ∨ idx + 8 + blob.length > data.length) := by
        intro hc
        rcases hc with hc | hc
        · exact hbne (List.length_eq_zero.mp hc)
        · omega
      rw [if_neg hcond]
      have htake : (data.drop (idx + 8)).take blob.length = blob := by
        rw [s2]
        exact List.take_left blob _
      rw [htake]
      have hdrop := drop_append_of_drop s2
      rw [ih data tail (idx + 8 + blob.length) f (fun x hx => hv x (by simp [hx])) hdrop
        ht hbad (by simp only [List.length_cons] at hf; omega)]

/-- C4 (spec-modelled, the app-info cache reader is not among the supplied
sources): after the 8-byte header the scan reads repeating
(u32 appid, u32 size, size-byte blob) records; a record with appid 0 or with
a size that is zero or overruns the remaining buffer stops the whole scan
without losing the records decoded before that point (and the embedding is a
total function, so nothing is thrown). -/
theorem app_info_scan_stops (header : List Nat) (recs : List (Nat × List Nat))
    (tail : List Nat) (hh : header.length = 8)
    (hv : ∀ r ∈ recs, r.1 ≠ 0 ∧ r.1 < 4294967296 ∧ r.2 ≠ [] ∧ r.2.length < 4294967296)
    (ht : 8 ≤ tail.length)
    (hbad : readU32 tail 0 = 0 ∨ readU32 tail 4 = 0 ∨ 8 + readU32 tail 4 > tail.length) :
    appInfoScan (header ++ encodeAppInfoRecs recs ++ tail) = recs := by
  unfold appInfoScan
  apply scanRecords_spec recs _ tail 8 _ hv ?_ ht hbad ?_
  · rw [List.append_assoc, ← hh]
    exact List.drop_left header _
  · have h1 := encodeAppInfoRecs_length_ge recs
    simp only [List.length_append]
    omega

/-- Witness for C4: an 8-byte header, one record (appid 1, one-byte blob),
then a sentinel record with appid 0 — the scan returns exactly the one
record. -/
theorem app_info_scan_stops_witness :
    appInfoScan ([0, 0, 0, 0, 0, 0, 0, 0] ++ encodeAppInfoRecs [(1, [171])] ++
      [0, 0, 0, 0, 0, 0, 0, 0]) = [(1, [171])] :=
  app_info_scan_stops [0, 0, 0, 0, 0, 0, 0, 0] [(1, [171])] [0, 0, 0, 0, 0, 0, 0, 0]
    (by decide) (by decide) (by decide) (by decide)

/-- C6: a poll tick in the tracking state emits a change notification if and
only if the tick's sorted set of distinct matched appids differs from the
previous tick's set; and from any state whose set is not {220}, two
consecutive ticks both yielding {220} emit exactly one notification, on the
first of the two. -/
theorem poll_change_notification_iff (prev : List (List Char)) (l : List (List Char))
    (st : Option (List (List Char))) (h : st ≠ some (pollCurrent [toL "220"])) :
    ((pollTick (some prev) l).2 = true ↔ pollCurrent l ≠ prev) ∧
    (pollTick st [toL "220"]).2 = true ∧
    (pollTick ((pollTick st [toL "220"]).1) [toL "220"]).2 = false := by
  have hcnd : some (pollCurrent [toL "220"]) ≠ st := fun w => h w.symm
  refine ⟨?_, ?_, ?_⟩
  · by_cases hc : pollCurrent l = prev <;> simp [pollTick, hc]
  · unfold pollTick
    rw [if_pos hcnd]
  · unfold pollTick
    rw [if_pos hcnd]
    dsimp only
    rw [if_neg (not_not_intro rfl)]

/-- Witness for C6: starting from the idle state, a {220} tick notifies and
the following identical tick does not; the tracking-state iff holds at the
concrete previous set {220}. -/
theorem poll_change_notification_iff_witness :
    (pollTick none [toL "220"]).2 = true ∧
      (pollTick ((pollTick none [toL "220"]).1) [toL "220"]).2 = false ∧
      ((pollTick (some [toL "220"]) [toL "220"]).2 = true ↔
        pollCurrent [toL "220"] ≠ [toL "220"]) :=
  ⟨(poll_change_notification_iff [] [toL "220"] none (by decide)).2.1,
   (poll_change_notification_iff [] [toL "220"] none (by decide)).2.2,
   (poll_change_notification_iff [toL "220"] [toL "220"] none (by decide)).1⟩

/-- C10: the very first poll tick always emits a change notification, even
when the matched appid set is empty, because the previous-set state starts
as the `None` sentinel, which compares unequal to every computed list. -/
theorem first_poll_always_notifies (appids : List (List Char)) :
    (pollTick watcherInitialLast appids).2 = true := by
  unfold pollTick watcherInitialLast
  rw [if_pos (by simp : some (pollCurrent appids) ≠ (none : Option (List (List Char))))]

/-- C7: per-process appid resolution puts the environment-variable strategy
first: whenever `_get_env_appid` returns a nonempty numeric value, the
resolved appid is exactly that value, regardless of the compat, command-line
and path strategies. -/
theorem inspect_pid_env_priority (paths : List (List Char × List Char × List Char))
    (exe cwd : List Char) (cmdline : List (List Char))
    (env : List (List Char × List Char)) (h : getEnvAppid env ≠ []) :
    inspectAppid paths exe cwd cmdline env = some (getEnvAppid env) := by
  unfold inspectAppid
  rw [if_pos h]
  simp

/-- Witness for C7: a process with `SteamAppId=220` in its environment and
`--appid 330` on its command line resolves to appid 220. -/
theorem inspect_pid_env_priority_witness :
    getEnvAppid [(toL "SteamAppId", toL "220")] ≠ [] ∧
      inspectAppid [] [] [] [toL "--appid", toL "330"]
        [(toL "SteamAppId", toL "220")] = some (toL "220") :=
  ⟨by decide,
    (inspect_pid_env_priority [] [] [] [toL "--appid", toL "330"]
        [(toL "SteamAppId", toL "220")] (by decide)).trans (by decide)⟩

/-- C8: when the first command-line flag pattern that matches captures a
digit string longer than 10 characters, `_get_cmd_appid` returns the decimal
rendering of its value folded through unsigned 32-bit masking. -/
theorem cmd_appid_mask_long (cmdline : List (List Char)) (v : List Char)
    (h1 : searchCmdPatterns (joinSpace cmdline) = some v) (h2 : v.length > 10) :
    getCmdAppid cmdline = natToChars (digitsToNat v % 4294967296) := by
  unfold getCmdAppid
  simp only [h1]
  rw [if_pos h2]

/-- Witness for C8: the raw command-line id 99999999999 resolves to
str(99999999999 mod 2^32) = 1215752191. -/
theorem cmd_appid_mask_long_witness :
    searchCmdPatterns (joinSpace [toL "--appid", toL "99999999999"]) =
        some (toL "99999999999") ∧
      getCmdAppid [toL "--appid", toL "99999999999"] = toL "1215752191" :=
  ⟨by decide,
    (cmd_appid_mask_long [toL "--appid", toL "99999999999"] (toL "99999999999")
        (by decide) (by decide)).trans (by decide)⟩
